import Mathlib

set_option maxHeartbeats 1000000
set_option maxRecDepth 4000

/-!
# Verification of the tender-pro Phase-1 document pipeline

Shallow embedding of the core of `solunov2/tender-pro`:

* `src/backend/app/services/phase1_merge.py` — completeness oracle and fusion merge
  over Python-dict-shaped metadata records;
* `src/backend/app/services/extractor.py` — scanned-PDF heuristic, language-aware
  candidate selection, multi-tender guard, classification skipping, and the lazy
  Phase-1 extraction waterfall.

Python values are modelled by the inductive `PyVal` (None / str / int / bool /
list / dict as an insertion-ordered association list).  I/O-bound parts (reading
PDF bytes, OCR, the AI extraction call) are parameters of the orchestrator
definitions, exactly at the interfaces the source uses them.
-/

/-- A Python value, as used by the dict-shaped metadata records of
`phase1_merge.py`.  Dicts are insertion-ordered association lists with the
unique-key discipline of Python dicts maintained by `assocSet`. -/
inductive PyVal where
  | none
  | pstr (s : String)
  | pint (n : Int)
  | pbool (b : Bool)
  | plist (xs : List PyVal)
  | pdict (entries : List (String × PyVal))

/-- A Python dict with string keys. -/
abbrev PyDict := List (String × PyVal)

/-- A Phase-1 metadata record: `Optional[Dict[str, Any]]` in the source. -/
abbrev MetaRec := Option PyDict

/-- Embeds `d.get(k)` on a Python dict: the value at the first matching key, `None`
when the key is absent (Python's `.get` default). -/
def pyGet (d : PyDict) (k : String) : PyVal :=
  match d with
  | [] => PyVal.none
  | (k', v) :: t => if k' = k then v else pyGet t k

/-- Embeds `k in d` on a Python dict. -/
def assocHas (d : PyDict) (k : String) : Bool :=
  match d with
  | [] => false
  | (k', _) :: t => k' = k || assocHas t k

/-- Embeds `d[k] = v` on a Python dict: replace in place if the key exists, otherwise
append at the end (Python insertion order). -/
def assocSet (d : PyDict) (k : String) (v : PyVal) : PyDict :=
  match d with
  | [] => [(k, v)]
  | (k', v') :: t => if k' = k then (k, v) :: t else (k', v') :: assocSet t k v

/-- Association-list update for string-keyed maps of arbitrary payload
(used for the fallback lots index `fb_by_num`). -/
def assocSetD (d : List (String × PyDict)) (k : String) (v : PyDict) :
    List (String × PyDict) :=
  match d with
  | [] => [(k, v)]
  | (k', v') :: t => if k' = k then (k, v) :: t else (k', v') :: assocSetD t k v

/-- Lookup in a string-keyed map of dicts. -/
def assocFindD (d : List (String × PyDict)) (k : String) : Option PyDict :=
  match d with
  | [] => Option.none
  | (k', v) :: t => if k' = k then some v else assocFindD t k

/-- The whitespace characters stripped by Python's `str.strip()` and matched by
the regex class `\s` (ASCII range, which is all the source data uses). -/
def pyIsSpace (c : Char) : Bool :=
  c = ' ' || c = '\t' || c = '\n' || c = '\r' || c = '\x0b' || c = '\x0c'

/-- Python `str.strip()`. -/
def pyStrip (s : String) : String :=
  String.mk (((s.data.dropWhile pyIsSpace).reverse.dropWhile pyIsSpace).reverse)

/-- Embeds `_is_blank_str` (phase1_merge.py:15): a string whose `strip()` is empty. -/
def isBlankStr (v : PyVal) : Bool :=
  match v with
  | .pstr s => pyStrip s = ""
  | _ => false

/-- Embeds `v is None` test for a Python value. -/
def isNoneV (v : PyVal) : Bool :=
  match v with
  | .none => true
  | _ => false

/-- Embeds `isinstance(v, dict)` test. -/
def isDictV (v : PyVal) : Bool :=
  match v with
  | .pdict _ => true
  | _ => false

/-- Embeds `_tracked_missing` (phase1_merge.py:19): a TrackedValue-like dict is missing
when it is not a dict, or its `value` is `None` or a blank string. -/
def trackedMissing (tv : PyVal) : Bool :=
  match tv with
  | .pdict d => isNoneV (pyGet d "value") || isBlankStr (pyGet d "value")
  | _ => true

/-- Embeds `_merge_tracked_value` (phase1_merge.py:27). -/
def mergeTrackedValue (base fallback : PyVal) : PyVal :=
  if trackedMissing base && isDictV fallback then fallback else base

/-- Embeds `_merge_submission_deadline` (phase1_merge.py:33): merge `date` and `time`
independently; a non-dict base is treated as `{}`, a non-dict fallback returns
the (coerced) base. -/
def mergeSubmissionDeadline (base fallback : PyVal) : PyVal :=
  let b : PyDict := match base with | .pdict d => d | _ => []
  match fallback with
  | .pdict f =>
      .pdict [("date", mergeTrackedValue (pyGet b "date") (pyGet f "date")),
              ("time", mergeTrackedValue (pyGet b "time") (pyGet f "time"))]
  | _ => .pdict b

/-- Embeds `_pick_list` inside `_merge_keywords` (phase1_merge.py:58). -/
def pickListFb (f : PyDict) (k : String) : PyVal :=
  match pyGet f k with
  | .plist ys => .plist ys
  | _ => .plist []

/-- Embeds `_pick_list` (phase1_merge.py:58): keep the base list when non-empty, else
the fallback list when it is a list, else `[]`. -/
def pickList (b f : PyDict) (k : String) : PyVal :=
  match pyGet b k with
  | .plist xs => if 0 < xs.length then .plist xs else pickListFb f k
  | _ => pickListFb f k

/-- Embeds `_merge_keywords` (phase1_merge.py:52). -/
def mergeKeywords (base fallback : PyVal) : PyVal :=
  let b : PyDict := match base with | .pdict d => d | _ => []
  match fallback with
  | .pdict f =>
      .pdict [("keywords_fr", pickList b f "keywords_fr"),
              ("keywords_eng", pickList b f "keywords_eng"),
              ("keywords_ar", pickList b f "keywords_ar")]
  | _ => .pdict b

/-- The `num.strip()` key of a lot number: `some` of the stripped string when
the value is a string with non-blank strip, else `none`. -/
def stripKey (v : PyVal) : Option String :=
  match v with
  | .pstr s => let t := pyStrip s; if t = "" then Option.none else some t
  | _ => Option.none

/-- The `fb_by_num` index of `_merge_lots` (phase1_merge.py:82): fallback lots
that are dicts with a non-blank string `lot_number`, keyed by the stripped
number; later lots overwrite earlier ones. -/
def fbByNum (fallback : List PyVal) : List (String × PyDict) :=
  fallback.foldl
    (fun m lot =>
      match lot with
      | .pdict d =>
          match stripKey (pyGet d "lot_number") with
          | some key => assocSetD m key d
          | Option.none => m
      | _ => m)
    []

/-- One fill step of `_merge_lots` (phase1_merge.py:106-111): set key `k` from
the fallback lot when it is `None` or blank in the accumulating lot. -/
def fillStep (fb : PyDict) (o : PyDict) (k : String) : PyDict :=
  if isNoneV (pyGet o k) || isBlankStr (pyGet o k) then assocSet o k (pyGet fb k)
  else o

/-- The per-lot fill of `_merge_lots`: fill `lot_subject`,
`lot_estimated_value`, `caution_provisoire`, then `lot_number`, from the
matched fallback lot. -/
def fillLot (lot fb : PyDict) : PyDict :=
  fillStep fb
    (["lot_subject", "lot_estimated_value", "caution_provisoire"].foldl
      (fillStep fb) lot)
    "lot_number"

/-- The fallback-lot choice of `_merge_lots` (phase1_merge.py:94-99): first by
stripped `lot_number` in `fb_by_num`, else the fallback lot at the same index
when it is a dict. -/
def chooseFb (fs : List PyVal) (byNum : List (String × PyDict)) (i : Nat)
    (lot : PyDict) : Option PyDict :=
  match stripKey (pyGet lot "lot_number") with
  | some key =>
      match assocFindD byNum key with
      | some fb => some fb
      | Option.none =>
          match fs.get? i with
          | some (.pdict d) => some d
          | _ => Option.none
  | Option.none =>
      match fs.get? i with
      | some (.pdict d) => some d
      | _ => Option.none

/-- The loop body of `_merge_lots` for one base lot at index `i`: `if not fb`
(no match, or an empty — hence falsy — fallback dict) append the base lot
unchanged, else append the filled lot. -/
def processOne (fs : List PyVal) (byNum : List (String × PyDict)) (i : Nat)
    (d : PyDict) : PyVal :=
  match chooseFb fs byNum i d with
  | some fb => if fb.isEmpty then .pdict d else .pdict (fillLot d fb)
  | Option.none => .pdict d

/-- The enumerate loop of `_merge_lots` (phase1_merge.py:90-113): non-dict base
lots are skipped, dict base lots are processed by `processOne`. -/
def mergeLotsLoop (fs : List PyVal) (byNum : List (String × PyDict)) :
    Nat → List PyVal → List PyVal
  | _, [] => []
  | i, lot :: rest =>
      match lot with
      | .pdict d => processOne fs byNum i d :: mergeLotsLoop fs byNum (i + 1) rest
      | _ => mergeLotsLoop fs byNum (i + 1) rest

/-- Embeds `_merge_lots` (phase1_merge.py:74). -/
def mergeLots (base fallback : PyVal) : PyVal :=
  match base with
  | .plist bs =>
      if bs.isEmpty then
        match fallback with
        | .plist _ => fallback
        | _ => base
      else
        match fallback with
        | .plist fs =>
            if fs.isEmpty then base
            else .plist (mergeLotsLoop fs (fbByNum fs) 0 bs)
        | _ => base
  | _ =>
      match fallback with
      | .plist _ => fallback
      | _ => base

/-- Embeds `REQUIRED_FIELDS` (phase1_merge.py:7). -/
def REQUIRED_FIELDS : List String :=
  ["reference_tender", "subject", "submission_deadline", "issuing_institution"]

/-- The per-field missing test shared by `is_metadata_complete` and
`get_missing_fields` (phase1_merge.py:124-139 and 150-164; the two loops are
textually identical in the source). -/
def requiredFieldMissing (d : PyDict) (field : String) : Bool :=
  match pyGet d field with
  | PyVal.none => true
  | PyVal.pdict v =>
      if assocHas v "value" then trackedMissing (.pdict v)
      else if assocHas v "date" then trackedMissing (pyGet v "date")
      else false
  | v => isBlankStr v

/-- Embeds `is_metadata_complete` (phase1_merge.py:119): `None` or empty records are
incomplete; otherwise every required field must be non-missing. -/
def is_metadata_complete (m : MetaRec) : Bool :=
  match m with
  | Option.none => false
  | some d =>
      if d.isEmpty then false
      else REQUIRED_FIELDS.all (fun f => !requiredFieldMissing d f)

/-- Embeds `get_missing_fields` (phase1_merge.py:144). -/
def get_missing_fields (m : MetaRec) : List String :=
  match m with
  | Option.none => REQUIRED_FIELDS
  | some d =>
      if d.isEmpty then REQUIRED_FIELDS
      else REQUIRED_FIELDS.filter (fun f => requiredFieldMissing d f)

/-- The seven scalar TrackedValue fields of `merge_phase1_metadata`
(phase1_merge.py:182-190). -/
def SCALAR_TRACKED_FIELDS : List String :=
  ["reference_tender", "tender_type", "issuing_institution", "execution_location",
   "folder_opening_location", "subject", "total_estimated_value"]

/-- The scalar-field merging loop of `merge_phase1_metadata`. -/
def mergeScalars (b f : PyDict) : PyDict :=
  SCALAR_TRACKED_FIELDS.foldl
    (fun o k => assocSet o k (mergeTrackedValue (pyGet o k) (pyGet f k))) b

/-- The final loop of `merge_phase1_metadata` (phase1_merge.py:205-207): copy
across fallback keys absent from the output. -/
def addMissingKeys (o : PyDict) (f : PyDict) : PyDict :=
  f.foldl (fun o kv => if assocHas o kv.1 then o else o ++ [kv]) o

/-- The dict body of `merge_phase1_metadata` (both inputs truthy dicts). -/
def mergeDicts (b f : PyDict) : PyDict :=
  let o1 := mergeScalars b f
  let o2 := assocSet o1 "submission_deadline"
    (mergeSubmissionDeadline (pyGet o1 "submission_deadline")
      (pyGet f "submission_deadline"))
  let o3 := assocSet o2 "lots" (mergeLots (pyGet o2 "lots") (pyGet f "lots"))
  let o4 := assocSet o3 "keywords"
    (mergeKeywords (pyGet o3 "keywords") (pyGet f "keywords"))
  addMissingKeys o4 f

/-- Python truthiness of a metadata record: `None` and `{}` are falsy. -/
def recFalsy (m : MetaRec) : Bool :=
  match m with
  | Option.none => true
  | some d => d.isEmpty

/-- Embeds `merge_phase1_metadata` (phase1_merge.py:169): falsy base returns the
fallback, falsy fallback returns the base, otherwise field-by-field merge.
The final wildcard arm is unreachable (a falsy input is caught by the guards). -/
def merge_phase1_metadata (base fallback : MetaRec) : MetaRec :=
  if recFalsy base then fallback
  else if recFalsy fallback then base
  else
    match base, fallback with
    | some b, some f => some (mergeDicts b f)
    | _, _ => Option.none

/-! ## Text utilities shared by the extractor heuristics

The heuristics of `extractor.py` work on lowercased filenames and sample texts
(`str.lower`, here ASCII `Char.toLower`, which covers all the pattern
alphabets) and use `re.search` / `re.findall` with a small fixed set of
patterns.  Each pattern is embedded as a dedicated character-level matcher with
the same semantics (existence of a match for `re.search`; leftmost
non-overlapping greedy scanning for `re.findall`, whose quantifiers never
backtrack productively for these particular patterns because the character
classes of adjacent atoms are disjoint). -/

/-- The apostrophe character (several source phrases contain it). -/
def apos : Char := Char.ofNat 39

/-- Lowercased character list of a Python string (`str.lower`). -/
def lowerChars (s : String) : List Char := s.data.map Char.toLower

/-- Does `l` start with the sequence `n`? -/
def startsWithSeq (n : List Char) (l : List Char) : Bool :=
  match n, l with
  | [], _ => true
  | _ :: _, [] => false
  | a :: n', b :: l' => a = b && startsWithSeq n' l'

/-- Does `l` contain the sequence `n` (Python `in` / `re.search` of a literal)? -/
def containsSeq (n : List Char) : List Char → Bool
  | [] => n.isEmpty
  | c :: t => startsWithSeq n (c :: t) || containsSeq n t

/-- The separator class `[\s_\-\.]` of the language filename patterns. -/
def isSepDot (c : Char) : Bool := pyIsSpace c || c = '_' || c = '-' || c = '.'

/-- The separator class `[\s_\-]` of the language filename patterns. -/
def isSepND (c : Char) : Bool := pyIsSpace c || c = '_' || c = '-'

/-- Embeds `re.search` of `[\s_\-\.]xy[\s_\-\.]` (e.g. `_fr_`, `-ar.`). -/
def hasMidTag (a b : Char) : List Char → Bool
  | c1 :: c2 :: c3 :: c4 :: rest =>
      (isSepDot c1 && c2 = a && c3 = b && isSepDot c4)
        || hasMidTag a b (c2 :: c3 :: c4 :: rest)
  | _ => false

/-- Embeds `re.search` of `[\s_\-\.]xy$` (e.g. ends with `_fr`). -/
def hasEndTag (a b : Char) : List Char → Bool
  | [c1, c2, c3] => isSepDot c1 && c2 = a && c3 = b
  | _ :: rest => hasEndTag a b rest
  | [] => false

/-- Embeds `re.search` of `^xy[\s_\-\.]` (e.g. starts with `fr_`). -/
def hasStartTag (a b : Char) (l : List Char) : Bool :=
  match l with
  | c1 :: c2 :: c3 :: _ => c1 = a && c2 = b && isSepDot c3
  | _ => false

/-- Embeds `re.search` of `[\s_\-]<lit>` (e.g. `[\s_\-]français`). -/
def hasSepThenLit (lit : List Char) : List Char → Bool
  | [] => false
  | c :: rest => (isSepND c && startsWithSeq lit rest) || hasSepThenLit lit rest

/-- Matches `[\s_\-]*<lit>` at the head of the list (any number of separators,
then the literal). -/
def litAfterSeps (lit : List Char) : List Char → Bool
  | [] => startsWithSeq lit []
  | c :: rest =>
      startsWithSeq lit (c :: rest) || (isSepND c && litAfterSeps lit rest)

/-- Embeds `re.search` of `version[\s_\-]*<lit>` (e.g. `version fr`). -/
def hasVersionThenLit (lit : List Char) : List Char → Bool
  | [] => false
  | c :: rest =>
      (startsWithSeq "version".data (c :: rest)
        && litAfterSeps lit ((c :: rest).drop 7))
        || hasVersionThenLit lit rest

/-- ASCII digit test (`\d` over the source's ASCII reference numbers). -/
def isDigitC (c : Char) : Bool := '0' ≤ c && c ≤ '9'

/-- Number of leading characters of `l` satisfying `p`. -/
def countLeading (p : Char → Bool) : List Char → Nat
  | [] => 0
  | c :: t => if p c then countLeading p t + 1 else 0

/-! ## Language detectors (`_is_french_document` / `_is_arabic_document`,
extractor.py:900-977) -/

/-- The six French content markers of `_is_french_document`
(extractor.py:926-933). -/
def frenchContentMarkers : List (List Char) :=
  ["règlement de consultation".data,
   "cahier des prescriptions".data,
   "avis d".data ++ [apos] ++ "appel d".data ++ [apos] ++ "offres".data,
   "marché public".data,
   "le soumissionnaire".data,
   "pièces justificatives".data]

/-- Embeds `_is_french_document` (extractor.py:900): strict filename patterns on the
lowercased filename, or at least two French content markers in the lowercased
sample text. -/
def isFrenchDocument (filename first_page_text : String) : Bool :=
  let fl := lowerChars filename
  let tl := lowerChars first_page_text
  hasMidTag 'f' 'r' fl || hasEndTag 'f' 'r' fl || hasStartTag 'f' 'r' fl
    || hasSepThenLit "français".data fl
    || hasSepThenLit "francais".data fl
    || hasSepThenLit "french".data fl
    || containsSeq "(fr)".data fl
    || containsSeq "[fr]".data fl
    || hasVersionThenLit ['f', 'r'] fl
    || (!tl.isEmpty
        && decide (2 ≤ (frenchContentMarkers.filter (fun m => containsSeq m tl)).length))

/-- Arabic-script character test (`[؀-ۿ]`). -/
def isArabicChar (c : Char) : Bool := 0x600 ≤ c.toNat && c.toNat ≤ 0x6FF

/-- Latin-letter test (`[a-zA-Z]`). -/
def isLatinChar (c : Char) : Bool := ('a' ≤ c && c ≤ 'z') || ('A' ≤ c && c ≤ 'Z')

/-- Embeds `_is_arabic_document` (extractor.py:943): strict filename patterns (including
two literal Arabic words) on the lowercased filename, or dominant Arabic script
in the raw sample text (more Arabic than Latin characters and more than 50). -/
def isArabicDocument (filename first_page_text : String) : Bool :=
  let fl := lowerChars filename
  hasMidTag 'a' 'r' fl || hasEndTag 'a' 'r' fl || hasStartTag 'a' 'r' fl
    || hasSepThenLit "arabe".data fl
    || hasSepThenLit "arabic".data fl
    || containsSeq "(ar)".data fl
    || containsSeq "[ar]".data fl
    || hasVersionThenLit ['a', 'r'] fl
    || containsSeq "عربي".data fl
    || containsSeq "العربية".data fl
    || (!first_page_text.data.isEmpty
        && (let ac := (first_page_text.data.filter isArabicChar).length
            let lc := (first_page_text.data.filter isLatinChar).length
            decide (lc < ac) && decide (50 < ac)))

/-! ## Multi-tender guard (`_is_multi_tender_avis`, extractor.py:980-1027) -/

/-- The seven fixed multi-tender phrases (extractor.py:995-1003). -/
def multiTenderIndicators : List (List Char) :=
  ["appels d".data ++ [apos] ++ "offres suivants".data,
   "marchés suivants".data,
   "consultations suivantes".data,
   "liste des appels".data,
   "tableau des marchés".data,
   "les références ci-après".data,
   "les marchés ci-après".data]

/-- Greedy match of `n[°o]?\s*\d+[/\-]\d{4}` at the head of the list, returning
the number of consumed characters.  The greedy quantifiers never need
backtracking here: `[°o]?`, `\s*` and `\d+` are each followed by atoms whose
character classes are disjoint from their own. -/
def matchRefP1 (l : List Char) : Option Nat :=
  match l with
  | 'n' :: rest =>
      let oc : Nat × List Char :=
        match rest with
        | c :: t => if c = '°' || c = 'o' then (1, t) else (0, rest)
        | [] => (0, rest)
      let ws := countLeading pyIsSpace oc.2
      let rest1 := oc.2.drop ws
      let ds := countLeading isDigitC rest1
      if ds = 0 then Option.none
      else
        match rest1.drop ds with
        | c :: rest2 =>
            if (c = '/' || c = '-') && 4 ≤ countLeading isDigitC rest2 then
              some (1 + oc.1 + ws + ds + 1 + 4)
            else Option.none
        | [] => Option.none
  | _ => Option.none

/-- Greedy match of `ref[:\s]+\d+[/\-]\d{4}` at the head of the list. -/
def matchRefP2 (l : List Char) : Option Nat :=
  match l with
  | 'r' :: 'e' :: 'f' :: rest =>
      let cs := countLeading (fun c => c = ':' || pyIsSpace c) rest
      if cs = 0 then Option.none
      else
        let rest1 := rest.drop cs
        let ds := countLeading isDigitC rest1
        if ds = 0 then Option.none
        else
          match rest1.drop ds with
          | c :: rest2 =>
              if (c = '/' || c = '-') && 4 ≤ countLeading isDigitC rest2 then
                some (3 + cs + ds + 1 + 4)
              else Option.none
          | [] => Option.none
  | _ => Option.none

/-- Greedy match of `\d+[/\-]ao[/\-]\d{4}` at the head of the list. -/
def matchRefP3 (l : List Char) : Option Nat :=
  let ds := countLeading isDigitC l
  if ds = 0 then Option.none
  else
    match l.drop ds with
    | c1 :: 'a' :: 'o' :: c2 :: rest =>
        if (c1 = '/' || c1 = '-') && (c2 = '/' || c2 = '-')
            && 4 ≤ countLeading isDigitC rest then
          some (ds + 1 + 2 + 1 + 4)
        else Option.none
    | _ => Option.none

/-- The scanning pass of `re.findall` match counting, written with an explicit
fuel argument (structurally recursive, hence computable inside the kernel).
Every step consumes at least one character, so any fuel at least the list
length yields the exact `re.findall` count: scan left to right, count
non-overlapping matches, resume right after each match. -/
def countMatchesAux (m : List Char → Option Nat) : Nat → List Char → Nat
  | 0, _ => 0
  | _ + 1, [] => 0
  | fuel + 1, c :: t =>
      match m (c :: t) with
      | some k => 1 + countMatchesAux m fuel (t.drop (k - 1))
      | Option.none => countMatchesAux m fuel t

/-- Embeds `re.findall` match count, with fuel instantiated to the list
length (always sufficient). -/
def countMatches (m : List Char → Option Nat) (l : List Char) : Nat :=
  countMatchesAux m l.length l

/-- The `ref_count` of `_is_multi_tender_avis` (extractor.py:1017-1020): total
number of matches of the three reference patterns in the lowercased text. -/
def refMatchCount (tl : List Char) : Nat :=
  countMatches matchRefP1 tl + countMatches matchRefP2 tl
    + countMatches matchRefP3 tl

/-- Embeds `_is_multi_tender_avis` (extractor.py:980): empty text is never
multi-tender; otherwise any of the fixed phrases, or more than three
reference-shaped matches, flags a multi-tender compilation.  The
`tender_reference` parameter is accepted and unused, exactly as in the
source. -/
def _is_multi_tender_avis (first_page_text : String)
    (_tender_reference : Option String) : Bool :=
  if first_page_text = "" then false
  else
    let tl := lowerChars first_page_text
    multiTenderIndicators.any (fun p => containsSeq p tl)
      || decide (3 < refMatchCount tl)

/-! ## Extractor data model (extractor.py:25-70) -/

/-- Embeds `DocumentType` (extractor.py:25). -/
inductive DocumentType where
  | AVIS | RC | CPS | ANNEXE | BPDE | AE | DSH | CCAG | CCTP | BQ | DQE
  | OTHER | UNKNOWN
deriving DecidableEq, Repr

/-- Embeds `ExtractionMethod` (extractor.py:41). -/
inductive ExtractionMethod where
  | DIGITAL | OCR
deriving DecidableEq, Repr

/-- Embeds `FirstPageResult` (extractor.py:46): the classification record produced by
the first-page scan. -/
structure FirstPageResult where
  filename : String
  first_page_text : String
  document_type : DocumentType
  is_scanned : Bool
  mime_type : String
  file_size_bytes : Nat
  success : Bool
  error : Option String
deriving DecidableEq, Repr

/-- Embeds `ExtractionResult` (extractor.py:59): the record produced by full text
extraction. -/
structure ExtractionResult where
  filename : String
  document_type : DocumentType
  text : String
  page_count : Option Nat
  extraction_method : ExtractionMethod
  file_size_bytes : Nat
  mime_type : String
  success : Bool
  error : Option String
deriving DecidableEq, Repr

/-- The decision kernel of `_is_pdf_scanned` (extractor.py:318-333): given the
digital text extracted from page 1, the PDF is flagged scanned iff the
stripped text has fewer than 100 characters. -/
def isPdfScannedFromText (first_page_text : String) : Bool :=
  decide ((pyStrip first_page_text).length < 100)

/-! ## Classification pass (extractor.py:557-579 and 881-897)

The format-specific sampling of `extract_first_page` (pypdf / docx / openpyxl
reads, OCR, AI classification) performs I/O on the file bytes; it enters the
model as the oracle parameter `body`, invoked exactly where the source
dispatches on the extension.  The guards around it are embedded from the
source. -/

/-- Python `str.startswith`, computed structurally on the character list. -/
def strStartsWith (s pre : String) : Bool := startsWithSeq pre.data s.data

/-- The accumulator pass extracting the last `/`-separated component. -/
def lastComponentAux (cur : List Char) : List Char → List Char
  | [] => cur.reverse
  | c :: t => if c = '/' then lastComponentAux [] t else lastComponentAux (c :: cur) t

/-- Embeds `filename.split('/')[-1]` (extractor.py:568). -/
def baseNameOf (filename : String) : String :=
  String.mk (lastComponentAux [] filename.data)

/-- The record returned for skipped temporary/hidden files
(extractor.py:570-579). -/
def skippedFirstPage (filename : String) : FirstPageResult :=
  { filename := filename
    first_page_text := ""
    document_type := DocumentType.UNKNOWN
    is_scanned := false
    mime_type := ""
    file_size_bytes := 0
    success := false
    error := some "Temporary or hidden file - skipped" }

/-- Embeds `extract_first_page` (extractor.py:557): base names starting with `~$` or
`.` yield the skipped record without touching the file; everything else is
sampled and classified by the format dispatch, abstracted as `body`. -/
def extract_first_page {β : Type} (body : String → β → FirstPageResult)
    (filename : String) (fileBytes : β) : FirstPageResult :=
  if strStartsWith (baseNameOf filename) "~$" || strStartsWith (baseNameOf filename) "." then
    skippedFirstPage filename
  else body filename fileBytes

/-- Embeds `classify_all_documents` (extractor.py:881): files whose full name starts
with `.` or `__` are skipped entirely; every other file contributes the result
of `extract_first_page`, in bundle order. -/
def classify_all_documents {β : Type} (body : String → β → FirstPageResult) :
    List (String × β) → List FirstPageResult
  | [] => []
  | (n, b) :: rest =>
      if strStartsWith n "." || strStartsWith n "__" then
        classify_all_documents body rest
      else extract_first_page body n b :: classify_all_documents body rest

/-! ## Candidate selection (`_select_best_document`, extractor.py:1030-1069) -/

/-- The partition pass of `_select_best_document` (extractor.py:1041-1052):
one sweep over the candidates, assigning each to the French, Arabic or neutral
bucket (a document matching both or neither language signal is neutral),
preserving input order within each bucket. -/
def selectPartition :
    List FirstPageResult →
      List FirstPageResult × List FirstPageResult × List FirstPageResult
  | [] => ([], [], [])
  | d :: rest =>
      let (fs, ars, ns) := selectPartition rest
      let f := isFrenchDocument d.filename d.first_page_text
      let a := isArabicDocument d.filename d.first_page_text
      if f && !a then (d :: fs, ars, ns)
      else if a && !f then (fs, d :: ars, ns)
      else (fs, ars, d :: ns)

/-- Embeds `_select_best_document` (extractor.py:1030): `None` on an empty candidate
list, else the first French candidate, else the first neutral one, else the
first Arabic one; the final `candidates[0]` fallback of the source is kept
although the three buckets cover every candidate. -/
def _select_best_document (candidates : List FirstPageResult) :
    Option FirstPageResult :=
  match candidates with
  | [] => Option.none
  | c0 :: _ =>
      let (fs, ars, ns) := selectPartition candidates
      match fs with
      | d :: _ => some d
      | [] =>
          match ns with
          | d :: _ => some d
          | [] =>
              match ars with
              | d :: _ => some d
              | [] => some c0

/-! ## Lazy Phase-1 waterfall (`extract_best_documents_for_phase1_lazy`,
extractor.py:1264-1338) -/

/-- The per-type candidate comprehensions (extractor.py:1291-1293):
classification results that succeeded and carry the given document type. -/
def typeCandidates {β : Type} (body : String → β → FirstPageResult)
    (zip_files : List (String × β)) (dt : DocumentType) : List FirstPageResult :=
  (classify_all_documents body zip_files).filter
    (fun r => r.success && r.document_type == dt)

/-- Embeds `_select_best_document(candidates, ...) if candidates else None`
(extractor.py:1295,1300-1301). -/
def preGuardBest {β : Type} (body : String → β → FirstPageResult)
    (zip_files : List (String × β)) (dt : DocumentType) : Option FirstPageResult :=
  let cs := typeCandidates body zip_files dt
  if cs.isEmpty then Option.none else _select_best_document cs

/-- The multi-tender guard applied to the selected AVIS
(extractor.py:1296-1298): a best AVIS flagged multi-tender is discarded. -/
def bestAvisGuarded {β : Type} (body : String → β → FirstPageResult)
    (zip_files : List (String × β)) (tender_reference : Option String) :
    Option FirstPageResult :=
  match preGuardBest body zip_files DocumentType.AVIS with
  | some a =>
      if _is_multi_tender_avis a.first_page_text tender_reference then Option.none
      else some a
  | Option.none => Option.none

/-- The candidate walk of the lazy extractor (extractor.py:1312-1332): skip
absent candidates and candidates whose file is missing from the bundle; break
as soon as `is_metadata_complete(current_metadata)` holds; otherwise run the
full extraction (`extract_full_document`, an I/O operation abstracted as
`extractFull`) and record it under the candidate type when successful.
`current` is never updated inside the walk, exactly as in the source. -/
def lazyLoop {β : Type} (extractFull : String → β → Bool → ExtractionResult)
    (zip : List (String × β)) (current : MetaRec) :
    List (DocumentType × Option FirstPageResult) →
      List (DocumentType × ExtractionResult)
  | [] => []
  | (_, Option.none) :: rest => lazyLoop extractFull zip current rest
  | (dt, some info) :: rest =>
      match zip.find? (fun kv => kv.1 == info.filename) with
      | Option.none => lazyLoop extractFull zip current rest
      | some kv =>
          if is_metadata_complete current then []
          else
            let extracted := extractFull info.filename kv.2 info.is_scanned
            if extracted.success then
              (dt, { extracted with document_type := dt })
                :: lazyLoop extractFull zip current rest
            else lazyLoop extractFull zip current rest

/-- Embeds `extract_best_documents_for_phase1_lazy` (extractor.py:1264): classify all
files, select the best AVIS (multi-tender-guarded), RC and CPS candidates,
walk them in that fixed priority order through `lazyLoop`, and return the
extractions together with the classifications purged of their sample text. -/
def extract_best_documents_for_phase1_lazy {β : Type}
    (body : String → β → FirstPageResult)
    (extractFull : String → β → Bool → ExtractionResult)
    (zip_files : List (String × β)) (tender_reference : Option String)
    (current_metadata : MetaRec) :
    List (DocumentType × ExtractionResult) × List FirstPageResult :=
  let classifications := classify_all_documents body zip_files
  let candidates :=
    [(DocumentType.AVIS, bestAvisGuarded body zip_files tender_reference),
     (DocumentType.RC, preGuardBest body zip_files DocumentType.RC),
     (DocumentType.CPS, preGuardBest body zip_files DocumentType.CPS)]
  (lazyLoop extractFull zip_files current_metadata candidates,
   classifications.map (fun c => { c with first_page_text := "" }))

/-- The Phase-1 fallback merge loop of the caller (routes.py:236-249): walk
AVIS → RC → CPS over the already-computed extractions, stopping once the
accumulated record is complete, merging the AI fragment (`ai`, the external
`extract_primary_metadata` call) of each successful non-empty extraction. -/
def phase1FallbackMergeLoop (ai : String → String → MetaRec)
    (extractions : List (DocumentType × ExtractionResult)) :
    MetaRec → List (String × DocumentType) → MetaRec
  | m, [] => m
  | m, (label, dt) :: rest =>
      if is_metadata_complete m then m
      else
        match extractions.find? (fun kv => kv.1 == dt) with
        | some kv =>
            if kv.2.success && !(kv.2.text = "") then
              phase1FallbackMergeLoop ai extractions
                (merge_phase1_metadata m (ai label kv.2.text)) rest
            else phase1FallbackMergeLoop ai extractions m rest
        | Option.none => phase1FallbackMergeLoop ai extractions m rest

/-! ## Statement helpers and concrete fixtures

Definitions used only to state theorems and witnesses: sub-value access,
claim-side tier definitions, and the concrete records the witnesses and
counterexamples evaluate on. -/

/-- Sub-value access inside a `PyVal`: the value at key `k` when the value is a
dict, else `None`. -/
def getAt (v : PyVal) (k : String) : PyVal :=
  match v with
  | .pdict d => pyGet d k
  | _ => PyVal.none

/-- Claim-side French tier of the selector: candidates matching the French
signal and not the Arabic one, in input order. -/
def frenchTier (cs : List FirstPageResult) : List FirstPageResult :=
  cs.filter (fun d =>
    isFrenchDocument d.filename d.first_page_text
      && !isArabicDocument d.filename d.first_page_text)

/-- Claim-side Arabic-only tier of the selector. -/
def arabicTier (cs : List FirstPageResult) : List FirstPageResult :=
  cs.filter (fun d =>
    isArabicDocument d.filename d.first_page_text
      && !isFrenchDocument d.filename d.first_page_text)

/-- Claim-side neutral tier of the selector: both signals or neither. -/
def neutralTier (cs : List FirstPageResult) : List FirstPageResult :=
  cs.filter (fun d =>
    !(isFrenchDocument d.filename d.first_page_text
        && !isArabicDocument d.filename d.first_page_text)
      && !(isArabicDocument d.filename d.first_page_text
            && !isFrenchDocument d.filename d.first_page_text))

/-- Condition on a lots value under which re-merging is stable: anything but a
non-empty list. -/
def lotsValOk (v : PyVal) : Bool :=
  match v with
  | .plist (_ :: _) => false
  | _ => true

/-- Condition on a fallback record under which the merge is idempotent on
repetition: its `lots` entry is not a non-empty list. -/
def lotsFbOk (f : MetaRec) : Bool :=
  match f with
  | some d => lotsValOk (pyGet d "lots")
  | Option.none => true

/-- A website-sourced TrackedValue fixture. -/
def tvC (s : String) : PyVal :=
  .pdict [("value", .pstr s), ("source_document", .pstr "WEBSITE"),
          ("source_date", PyVal.none)]

/-- An initial record missing only `subject` (fixture for C1 and C3). -/
def meta0C1 : MetaRec :=
  some [("reference_tender", tvC "12/2024"),
        ("submission_deadline",
          .pdict [("date", tvC "2024-05-01"), ("time", tvC "10:00")]),
        ("issuing_institution", tvC "Ministère X")]

/-- An AVIS-sourced fragment supplying the missing `subject` (fixture for C1). -/
def fragAvisC1 : MetaRec := some [("subject", tvC "Fourniture de matériel")]

/-- A different RC-sourced fragment (fixture for C1). -/
def fragRcC1 : MetaRec := some [("subject", tvC "Autre objet")]

/-- Classification record of a single-tender AVIS sample (fixture for C1). -/
def avisFPC1 : FirstPageResult :=
  { filename := "avis.pdf"
    first_page_text := "avis de consultation n° 12/2024"
    document_type := DocumentType.AVIS
    is_scanned := false
    mime_type := "application/pdf"
    file_size_bytes := 100
    success := true
    error := Option.none }

/-- Classification record of an RC sample (fixture for C1 and C3). -/
def rcFPC1 : FirstPageResult :=
  { filename := "rc.pdf"
    first_page_text := "règlement de consultation"
    document_type := DocumentType.RC
    is_scanned := false
    mime_type := "application/pdf"
    file_size_bytes := 100
    success := true
    error := Option.none }

/-- Classification oracle fixture for C1: `avis.pdf` classifies as AVIS,
everything else as RC. -/
def bodyC1 : String → Unit → FirstPageResult := fun n _ =>
  if n = "avis.pdf" then avisFPC1 else rcFPC1

/-- Full-extraction oracle fixture: every extraction succeeds with a fixed
text. -/
def efC1 : String → Unit → Bool → ExtractionResult := fun n _ _ =>
  { filename := n
    document_type := DocumentType.UNKNOWN
    text := "texte extrait"
    page_count := some 1
    extraction_method := ExtractionMethod.DIGITAL
    file_size_bytes := 100
    mime_type := "application/pdf"
    success := true
    error := Option.none }

/-- A two-file bundle with one AVIS and one RC (fixture for C1 and C3). -/
def zipC1 : List (String × Unit) := [("avis.pdf", ()), ("rc.pdf", ())]

/-- AI-fragment oracle fixture for C1: the AVIS text yields the completing
fragment, any other source yields the RC fragment. -/
def aiC1 : String → String → MetaRec := fun label _ =>
  if label = "AVIS" then fragAvisC1 else fragRcC1

/-- A multi-tender AVIS sample text: four distinct reference numbers
(fixture for C3). -/
def mtTextC3 : String := "avis: n° 01/2024 n° 02/2024 n° 03/2024 n° 04/2024"

/-- Classification record of the multi-tender AVIS (fixture for C3). -/
def avisMTC3 : FirstPageResult := { avisFPC1 with first_page_text := mtTextC3 }

/-- Classification oracle fixture for C3: `avis.pdf` classifies as a
multi-tender AVIS, everything else as RC. -/
def bodyC3 : String → Unit → FirstPageResult := fun n _ =>
  if n = "avis.pdf" then avisMTC3 else rcFPC1

/-- The French notice of the selection scenario (fixture for C6). -/
def frDocC6 : FirstPageResult :=
  { filename := "avis_fr.pdf"
    first_page_text := "avis de consultation n° 12/2024"
    document_type := DocumentType.AVIS
    is_scanned := false
    mime_type := "application/pdf"
    file_size_bytes := 100
    success := true
    error := Option.none }

/-- The Arabic-script notice of the selection scenario (fixture for C6). -/
def arDocC6 : FirstPageResult :=
  { filename := "avis_ar.pdf"
    first_page_text := "إعلان عن طلب عروض مفتوح رقم 2024/12"
    document_type := DocumentType.AVIS
    is_scanned := false
    mime_type := "application/pdf"
    file_size_bytes := 100
    success := true
    error := Option.none }

/-- A candidate whose filename matches both the French and the Arabic signal
(fixture for the C6 witness). -/
def bothDocC6 : FirstPageResult :=
  { filename := "avis_fr_ar.pdf"
    first_page_text := ""
    document_type := DocumentType.AVIS
    is_scanned := false
    mime_type := "application/pdf"
    file_size_bytes := 100
    success := true
    error := Option.none }

/-- Classification oracle fixture for C9 (never invoked on the skipped
paths). -/
def bodyC9 : String → Unit → FirstPageResult := fun n _ => skippedFirstPage n

/-- Fallback record whose only key is a scalar field (fixture for the C5
counterexample). -/
def fbC5 : MetaRec := some [("reference_tender", tvC "55/2024")]

/-- Base record exercising every field shape (fixture for the C2 witness). -/
def bC2 : PyDict :=
  [("reference_tender", tvC "12/2024"),
   ("submission_deadline",
     .pdict [("date", tvC "2024-05-01"), ("time", .pdict [("value", PyVal.none)])]),
   ("keywords", .pdict [("keywords_fr", .plist [.pstr "eau"]),
                        ("keywords_eng", .plist [])]),
   ("lots", .plist [.pdict [("lot_number", .pstr "1"),
                            ("lot_subject", .pstr "Lot un")]])]

/-- Fallback record exercising every field shape (fixture for the C2
witness). -/
def fC2 : PyDict :=
  [("reference_tender", tvC "99/1999"),
   ("submission_deadline",
     .pdict [("date", tvC "1999-01-01"), ("time", tvC "09:00")]),
   ("keywords", .pdict [("keywords_fr", .plist [.pstr "gaz"])]),
   ("lots", .plist [.pdict [("lot_number", .pstr "1"),
                            ("lot_subject", .pstr "Lot un bis"),
                            ("lot_estimated_value", .pstr "1000")]])]

/-- A 100-character text whose last character is a space (counterexample input
for C7). -/
def text100TrailingSpace : String := String.mk (List.replicate 99 'a' ++ [' '])

/-- A 100-character text with no whitespace (witness input for C7). -/
def text100Solid : String := String.mk (List.replicate 100 'b')

/-- A 99-character text (witness input for C7). -/
def text99Solid : String := String.mk (List.replicate 99 'b')

/-! ## Lemmas about the Python-dict operations -/

theorem pyGet_assocSet (d : PyDict) (k' : String) (v : PyVal) (k : String) :
    pyGet (assocSet d k' v) k = if k' = k then v else pyGet d k := by
  induction d with
  | nil => simp [assocSet, pyGet]
  | cons hd tl ih =>
      obtain ⟨k0, v0⟩ := hd
      by_cases h1 : k0 = k'
      · subst h1
        by_cases h2 : k0 = k <;> simp [assocSet, pyGet, h2]
      · by_cases h2 : k0 = k
        · subst h2
          have h3 : ¬ k' = k0 := fun h => h1 h.symm
          simp [assocSet, pyGet, h1, h3]
        · simp [assocSet, pyGet, h1, h2, ih]

theorem assocHas_assocSet (d : PyDict) (k' : String) (v : PyVal) (k : String) :
    assocHas (assocSet d k' v) k = if k' = k then true else assocHas d k := by
  induction d with
  | nil => simp [assocSet, assocHas]
  | cons hd tl ih =>
      obtain ⟨k0, v0⟩ := hd
      by_cases h1 : k0 = k'
      · subst h1
        by_cases h2 : k0 = k <;> simp [assocSet, assocHas, h2]
      · by_cases h2 : k0 = k
        · subst h2
          have h3 : ¬ k' = k0 := fun h => h1 h.symm
          simp [assocSet, assocHas, h1, h3]
        · simp [assocSet, assocHas, h1, h2, ih]

theorem assocSet_self (d : PyDict) (k : String) (v : PyVal)
    (h1 : assocHas d k = true) (h2 : pyGet d k = v) : assocSet d k v = d := by
  induction d with
  | nil => simp [assocHas] at h1
  | cons hd tl ih =>
      obtain ⟨k0, v0⟩ := hd
      by_cases h3 : k0 = k
      · subst h3
        simp [pyGet] at h2
        simp [assocSet, h2]
      · simp [assocHas, h3] at h1
        simp [pyGet, h3] at h2
        simp [assocSet, h3, ih h1 h2]

theorem pyGet_append_has (d l : PyDict) (k : String)
    (h : assocHas d k = true) : pyGet (d ++ l) k = pyGet d k := by
  induction d with
  | nil => simp [assocHas] at h
  | cons hd tl ih =>
      obtain ⟨k0, v0⟩ := hd
      by_cases h1 : k0 = k
      · simp [pyGet, h1]
      · simp [assocHas, h1] at h
        simp [pyGet, h1, ih h]

theorem assocHas_append_left (d l : PyDict) (k : String)
    (h : assocHas d k = true) : assocHas (d ++ l) k = true := by
  induction d with
  | nil => simp [assocHas] at h
  | cons hd tl ih =>
      obtain ⟨k0, v0⟩ := hd
      by_cases h1 : k0 = k
      · simp [assocHas, h1]
      · simp [assocHas, h1] at h
        simp [assocHas, h1, ih h]

theorem assocHas_addMissingKeys (o f : PyDict) (k : String)
    (h : assocHas o k = true) : assocHas (addMissingKeys o f) k = true := by
  induction f generalizing o with
  | nil => simpa [addMissingKeys] using h
  | cons kv rest ih =>
      simp only [addMissingKeys, List.foldl_cons]
      by_cases h1 : assocHas o kv.1
      · simpa [h1, addMissingKeys] using ih o h
      · have h2 : assocHas (o ++ [kv]) k = true := assocHas_append_left o [kv] k h
        simpa [h1, addMissingKeys] using ih (o ++ [kv]) h2

theorem pyGet_addMissingKeys (o f : PyDict) (k : String)
    (h : assocHas o k = true) : pyGet (addMissingKeys o f) k = pyGet o k := by
  induction f generalizing o with
  | nil => simp [addMissingKeys]
  | cons kv rest ih =>
      simp only [addMissingKeys, List.foldl_cons]
      by_cases h1 : assocHas o kv.1
      · simpa [h1, addMissingKeys] using ih o h
      · have h2 : assocHas (o ++ [kv]) k = true := assocHas_append_left o [kv] k h
        have h3 := ih (o ++ [kv]) h2
        simp only [addMissingKeys] at h3
        simp [h1, addMissingKeys, h3, pyGet_append_has o [kv] k h]

theorem addMissingKeys_nop (o f : PyDict)
    (h : ∀ kv ∈ f, assocHas o kv.1 = true) : addMissingKeys o f = o := by
  induction f with
  | nil => simp [addMissingKeys]
  | cons kv rest ih =>
      have h1 : assocHas o kv.1 = true := h kv (by simp)
      simp only [addMissingKeys, List.foldl_cons, h1, if_pos]
      exact ih (fun kv' hkv' => h kv' (by simp [hkv']))

/-! ## Characterization of `merge_phase1_metadata`'s dict body -/

theorem pyGet_mergeScalars_mem (b f : PyDict) (k : String)
    (h : k ∈ SCALAR_TRACKED_FIELDS) :
    pyGet (mergeScalars b f) k = mergeTrackedValue (pyGet b k) (pyGet f k) := by
  fin_cases h <;>
    simp [mergeScalars, SCALAR_TRACKED_FIELDS, List.foldl, pyGet_assocSet]

theorem pyGet_mergeScalars_not_mem (b f : PyDict) (k : String)
    (h : ¬ k ∈ SCALAR_TRACKED_FIELDS) :
    pyGet (mergeScalars b f) k = pyGet b k := by
  simp only [SCALAR_TRACKED_FIELDS, List.mem_cons, List.not_mem_nil, or_false,
    not_or] at h
  obtain ⟨h1, h2, h3, h4, h5, h6, h7⟩ := h
  simp only [mergeScalars, SCALAR_TRACKED_FIELDS, List.foldl, pyGet_assocSet]
  rw [if_neg (fun hh => h7 hh.symm), if_neg (fun hh => h6 hh.symm),
    if_neg (fun hh => h5 hh.symm), if_neg (fun hh => h4 hh.symm),
    if_neg (fun hh => h3 hh.symm), if_neg (fun hh => h2 hh.symm),
    if_neg (fun hh => h1 hh.symm)]

theorem assocHas_mergeScalars_mem (b f : PyDict) (k : String)
    (h : k ∈ SCALAR_TRACKED_FIELDS) :
    assocHas (mergeScalars b f) k = true := by
  fin_cases h <;>
    simp [mergeScalars, SCALAR_TRACKED_FIELDS, List.foldl, assocHas_assocSet]

theorem assocHas_mergeScalars_of (b f : PyDict) (k : String)
    (h : assocHas b k = true) :
    assocHas (mergeScalars b f) k = true := by
  simp [mergeScalars, SCALAR_TRACKED_FIELDS, List.foldl, assocHas_assocSet]
  tauto

theorem pyGet_mergeDicts_scalar (b f : PyDict) (k : String)
    (h : k ∈ SCALAR_TRACKED_FIELDS) :
    pyGet (mergeDicts b f) k = mergeTrackedValue (pyGet b k) (pyGet f k) := by
  have hne1 : k ≠ "submission_deadline" := by fin_cases h <;> decide
  have hne2 : k ≠ "lots" := by fin_cases h <;> decide
  have hne3 : k ≠ "keywords" := by fin_cases h <;> decide
  have hhas : assocHas (mergeScalars b f) k = true := assocHas_mergeScalars_mem b f k h
  simp only [mergeDicts]
  rw [pyGet_addMissingKeys]
  · rw [pyGet_assocSet, if_neg (fun hh => hne3 hh.symm),
      pyGet_assocSet, if_neg (fun hh => hne2 hh.symm),
      pyGet_assocSet, if_neg (fun hh => hne1 hh.symm),
      pyGet_mergeScalars_mem b f k h]
  · rw [assocHas_assocSet, assocHas_assocSet, assocHas_assocSet]
    simp [hhas]

theorem pyGet_mergeDicts_sd (b f : PyDict) :
    pyGet (mergeDicts b f) "submission_deadline"
      = mergeSubmissionDeadline (pyGet b "submission_deadline")
          (pyGet f "submission_deadline") := by
  have hb : pyGet (mergeScalars b f) "submission_deadline"
      = pyGet b "submission_deadline" :=
    pyGet_mergeScalars_not_mem b f _ (by decide)
  simp only [mergeDicts]
  rw [pyGet_addMissingKeys]
  · rw [pyGet_assocSet, if_neg (by decide), pyGet_assocSet, if_neg (by decide),
      pyGet_assocSet, if_pos rfl, hb]
  · rw [assocHas_assocSet, assocHas_assocSet, assocHas_assocSet]
    simp

theorem pyGet_mergeDicts_lots (b f : PyDict) :
    pyGet (mergeDicts b f) "lots"
      = mergeLots (pyGet b "lots") (pyGet f "lots") := by
  have hb : pyGet (mergeScalars b f) "lots" = pyGet b "lots" :=
    pyGet_mergeScalars_not_mem b f _ (by decide)
  simp only [mergeDicts]
  rw [pyGet_addMissingKeys]
  · rw [pyGet_assocSet, if_neg (by decide), pyGet_assocSet, if_pos rfl,
      pyGet_assocSet, if_neg (by decide), hb]
  · rw [assocHas_assocSet, assocHas_assocSet]
    simp

theorem pyGet_mergeDicts_keywords (b f : PyDict) :
    pyGet (mergeDicts b f) "keywords"
      = mergeKeywords (pyGet b "keywords") (pyGet f "keywords") := by
  have hb : pyGet (mergeScalars b f) "keywords" = pyGet b "keywords" :=
    pyGet_mergeScalars_not_mem b f _ (by decide)
  have hsd : pyGet (assocSet (mergeScalars b f) "submission_deadline"
      (mergeSubmissionDeadline (pyGet (mergeScalars b f) "submission_deadline")
        (pyGet f "submission_deadline"))) "keywords" = pyGet b "keywords" := by
    rw [pyGet_assocSet, if_neg (by decide), hb]
  simp only [mergeDicts]
  rw [pyGet_addMissingKeys]
  · rw [pyGet_assocSet, if_pos rfl, pyGet_assocSet, if_neg (by decide), hsd]
  · rw [assocHas_assocSet]
    simp

/-! ## C4 — completeness oracle vs. missing-field list -/

/-- C4: for every metadata record (including `None`), `is_metadata_complete`
returns true exactly when `get_missing_fields` returns the empty list, over the
fixed required-field set. -/
theorem C4_complete_iff_no_missing (m : MetaRec) :
    is_metadata_complete m = true ↔ get_missing_fields m = [] := by
  cases m with
  | none => simp [is_metadata_complete, get_missing_fields, REQUIRED_FIELDS]
  | some d =>
      by_cases hd : d.isEmpty
      · simp [is_metadata_complete, get_missing_fields, hd, REQUIRED_FIELDS]
      · simp [is_metadata_complete, get_missing_fields, hd, List.all_eq_true,
          List.filter_eq_nil_iff]

/-! ## C7 — scanned-PDF threshold -/

theorem length_dropWhile_le (p : Char → Bool) (l : List Char) :
    (l.dropWhile p).length ≤ l.length := by
  induction l with
  | nil => simp [List.dropWhile]
  | cons c t ih =>
      by_cases hc : p c
      · simp only [List.dropWhile, hc]
        exact Nat.le_succ_of_le ih
      · simp [List.dropWhile, hc]

theorem pyStrip_length_le (t : String) : (pyStrip t).length ≤ t.length := by
  show (((t.data.dropWhile pyIsSpace).reverse.dropWhile pyIsSpace).reverse).length
      ≤ t.data.length
  rw [List.length_reverse]
  calc ((t.data.dropWhile pyIsSpace).reverse.dropWhile pyIsSpace).length
      ≤ (t.data.dropWhile pyIsSpace).reverse.length :=
        length_dropWhile_le _ _
    _ = (t.data.dropWhile pyIsSpace).length := List.length_reverse _
    _ ≤ t.data.length := length_dropWhile_le _ _

/-- C7 counterexample: a first page whose digital extraction yields exactly 100
characters, the last being a space, is still flagged scanned, because the
source checks `len(text.strip()) < 100`, not the raw length. -/
theorem C7_counterexample :
    text100TrailingSpace.length = 100
      ∧ isPdfScannedFromText text100TrailingSpace = true := by
  constructor
  · rfl
  · rfl

/-- C7 (amended): the threshold is evaluated on the whitespace-stripped text: a
stripped length of exactly 100 is not scanned, and any raw length of 99 (whose
stripped length is necessarily below 100) is scanned. -/
theorem C7_scanned_threshold (t : String) :
    ((pyStrip t).length = 100 → isPdfScannedFromText t = false)
      ∧ (t.length = 99 → isPdfScannedFromText t = true) := by
  constructor
  · intro h
    simp [isPdfScannedFromText, h]
  · intro h
    have hle : (pyStrip t).length ≤ t.length := pyStrip_length_le t
    simp only [isPdfScannedFromText, decide_eq_true_eq]
    omega

/-- C7 witness: the amended threshold at concrete inputs. -/
theorem C7_witness :
    isPdfScannedFromText text100Solid = false
      ∧ isPdfScannedFromText text99Solid = true :=
  ⟨(C7_scanned_threshold text100Solid).1 rfl,
   (C7_scanned_threshold text99Solid).2 rfl⟩

/-! ## C10 — materialized output keys of the merge -/

/-- C10: whenever both records are non-empty (truthy), the merged record
contains the keys `submission_deadline`, `lots` and `keywords`, whether or not
either input mentions them. -/
theorem C10_materialized_keys (b f : PyDict) (hb : b ≠ []) (hf : f ≠ []) :
    ∃ out, merge_phase1_metadata (some b) (some f) = some out
      ∧ assocHas out "submission_deadline" = true
      ∧ assocHas out "lots" = true
      ∧ assocHas out "keywords" = true := by
  refine ⟨mergeDicts b f, ?_, ?_, ?_, ?_⟩
  · simp [merge_phase1_metadata, recFalsy, List.isEmpty_iff, hb, hf]
  · apply assocHas_addMissingKeys
    rw [assocHas_assocSet, assocHas_assocSet, assocHas_assocSet]
    simp
  · apply assocHas_addMissingKeys
    rw [assocHas_assocSet, assocHas_assocSet]
    simp
  · apply assocHas_addMissingKeys
    rw [assocHas_assocSet]
    simp

/-- C10 witness: concrete one-key records produce all three materialized keys. -/
theorem C10_witness :
    ∃ out, merge_phase1_metadata (some [("x", .pstr "y")]) (some [("z", .pstr "w")])
        = some out
      ∧ assocHas out "submission_deadline" = true
      ∧ assocHas out "lots" = true
      ∧ assocHas out "keywords" = true :=
  C10_materialized_keys [("x", .pstr "y")] [("z", .pstr "w")]
    (by simp) (by simp)

/-! ## C9 — hidden/temp file skipping -/

/-- C9 counterexample: a file named `~$x.docx` does produce a
ClassificationRecord — `classify_all_documents` only skips names starting with
`.` or `__`; the `~$` guard sits inside `extract_first_page`, which still
returns a (failed) record that is appended to the classification list. -/
theorem C9_counterexample :
    (classify_all_documents bodyC9 [("~$x.docx", ())]).map FirstPageResult.filename
        = ["~$x.docx"]
      ∧ (classify_all_documents bodyC9 [("~$x.docx", ())]).map FirstPageResult.success
        = [false] := by
  constructor
  · rfl
  · rfl

/-- C9 (amended): files whose full name starts with `.` or `__` contribute no
record at all to `classify_all_documents`; a file whose base name starts with
`~$` or `.` (but whose full name passes the first guard) contributes the fixed
skipped record — `success = false`, no sample text, no classification. -/
theorem C9_skip_behaviour {β : Type} (body : String → β → FirstPageResult)
    (files : List (String × β)) :
    classify_all_documents body files
        = (files.filter
            (fun kv => !(strStartsWith kv.1 "." || strStartsWith kv.1 "__"))).map
            (fun kv => extract_first_page body kv.1 kv.2)
      ∧ (∀ n b,
          (strStartsWith (baseNameOf n) "~$" || strStartsWith (baseNameOf n) ".") = true →
          extract_first_page body n b = skippedFirstPage n) := by
  constructor
  · induction files with
    | nil => simp [classify_all_documents]
    | cons kv rest ih =>
        obtain ⟨n, b⟩ := kv
        by_cases hskip : strStartsWith n "." || strStartsWith n "__"
        · simp only [Bool.or_eq_true] at hskip
          rcases hskip with h | h <;>
            simp [classify_all_documents, List.filter_cons, h, ih]
        · simp only [Bool.or_eq_true, not_or, Bool.not_eq_true] at hskip
          simp [classify_all_documents, List.filter_cons, hskip.1, hskip.2, ih]
  · intro n b h
    simp [extract_first_page, h]

/-- C9 witness: the amended behaviour at a concrete bundle. -/
theorem C9_witness :
    classify_all_documents bodyC9
        [(".hidden", ()), ("__macosx/a.pdf", ()), ("~$x.docx", ())]
      = ([(".hidden", ()), ("__macosx/a.pdf", ()), ("~$x.docx", ())].filter
          (fun kv => !(strStartsWith kv.1 "." || strStartsWith kv.1 "__"))).map
          (fun kv => extract_first_page bodyC9 kv.1 kv.2)
    ∧ extract_first_page bodyC9 "~$x.docx" () = skippedFirstPage "~$x.docx" :=
  ⟨(C9_skip_behaviour bodyC9
      [(".hidden", ()), ("__macosx/a.pdf", ()), ("~$x.docx", ())]).1,
   (C9_skip_behaviour bodyC9
      [(".hidden", ()), ("__macosx/a.pdf", ()), ("~$x.docx", ())]).2
      "~$x.docx" () rfl⟩

/-! ## C8 — lot merge never invents lots -/

theorem mergeLotsLoop_length_le (fs : List PyVal) (byNum : List (String × PyDict))
    (i : Nat) (bs : List PyVal) :
    (mergeLotsLoop fs byNum i bs).length ≤ bs.length := by
  induction bs generalizing i with
  | nil => simp [mergeLotsLoop]
  | cons lot rest ih =>
      cases lot with
      | pdict d =>
          simpa [mergeLotsLoop] using Nat.succ_le_succ (ih (i + 1))
      | none => simpa [mergeLotsLoop] using Nat.le_succ_of_le (ih (i + 1))
      | pstr s => simpa [mergeLotsLoop] using Nat.le_succ_of_le (ih (i + 1))
      | pint n => simpa [mergeLotsLoop] using Nat.le_succ_of_le (ih (i + 1))
      | pbool bb => simpa [mergeLotsLoop] using Nat.le_succ_of_le (ih (i + 1))
      | plist xs => simpa [mergeLotsLoop] using Nat.le_succ_of_le (ih (i + 1))

theorem mergeLotsLoop_mem (fs : List PyVal) (byNum : List (String × PyDict))
    (i : Nat) (bs : List PyVal) (x : PyVal)
    (hx : x ∈ mergeLotsLoop fs byNum i bs) :
    ∃ j d, bs.get? j = some (.pdict d) ∧ x = processOne fs byNum (i + j) d := by
  induction bs generalizing i with
  | nil => simp [mergeLotsLoop] at hx
  | cons lot rest ih =>
      have step : ∀ h : x ∈ mergeLotsLoop fs byNum (i + 1) rest,
          ∃ j d, (lot :: rest).get? j = some (.pdict d)
            ∧ x = processOne fs byNum (i + j) d := by
        intro h
        obtain ⟨j, d', hj, hx'⟩ := ih (i + 1) h
        refine ⟨j + 1, d', by simpa using hj, ?_⟩
        rw [hx']
        congr 1
        omega
      cases lot with
      | pdict d =>
          simp only [mergeLotsLoop, List.mem_cons] at hx
          rcases hx with h | h
          · exact ⟨0, d, by simp, by simpa using h⟩
          · exact step h
      | none => exact step (by simpa [mergeLotsLoop] using hx)
      | pstr s => exact step (by simpa [mergeLotsLoop] using hx)
      | pint n => exact step (by simpa [mergeLotsLoop] using hx)
      | pbool bb => exact step (by simpa [mergeLotsLoop] using hx)
      | plist xs => exact step (by simpa [mergeLotsLoop] using hx)

/-- C8: for a non-empty base lot list and any fallback value, the merged lot
list is a list no longer than the base list, and every merged lot derives from
a base lot (unchanged, or the `processOne` fill of a base dict lot); no
fallback-only lot is ever appended. -/
theorem C8_lots_bounded (bs : List PyVal) (fbV : PyVal) (h : bs ≠ []) :
    ∃ os, mergeLots (.plist bs) fbV = .plist os
      ∧ os.length ≤ bs.length
      ∧ ∀ x ∈ os, ∃ j l, bs.get? j = some l
          ∧ (x = l ∨ ∃ d fs, l = PyVal.pdict d ∧ fbV = .plist fs
              ∧ x = processOne fs (fbByNum fs) j d) := by
  have hbs : bs.isEmpty = false := by simpa [List.isEmpty_iff] using h
  have base_case : ∀ hos : mergeLots (.plist bs) fbV = .plist bs,
      ∃ os, mergeLots (.plist bs) fbV = .plist os
        ∧ os.length ≤ bs.length
        ∧ ∀ x ∈ os, ∃ j l, bs.get? j = some l
            ∧ (x = l ∨ ∃ d fs, l = PyVal.pdict d ∧ fbV = .plist fs
                ∧ x = processOne fs (fbByNum fs) j d) := by
    intro hos
    refine ⟨bs, hos, le_refl _, ?_⟩
    intro x hx
    obtain ⟨j, hj⟩ := List.mem_iff_get?.1 hx
    exact ⟨j, x, hj, Or.inl rfl⟩
  cases fbV with
  | plist fs =>
      by_cases hfs : fs.isEmpty
      · exact base_case (by simp [mergeLots, hbs, hfs])
      · refine ⟨mergeLotsLoop fs (fbByNum fs) 0 bs, by simp [mergeLots, hbs, hfs],
          mergeLotsLoop_length_le _ _ 0 bs, ?_⟩
        intro x hx
        obtain ⟨j, d, hj, hx'⟩ := mergeLotsLoop_mem fs (fbByNum fs) 0 bs x hx
        exact ⟨j, .pdict d, hj, Or.inr ⟨d, fs, rfl, rfl, by simpa using hx'⟩⟩
  | none => exact base_case (by simp [mergeLots, hbs])
  | pstr s => exact base_case (by simp [mergeLots, hbs])
  | pint n => exact base_case (by simp [mergeLots, hbs])
  | pbool bb => exact base_case (by simp [mergeLots, hbs])
  | pdict d => exact base_case (by simp [mergeLots, hbs])

/-- C8 witness: one base lot against two fallback lots — the merged list keeps
at most one lot. -/
theorem C8_witness :
    ∃ os, mergeLots (.plist [.pdict [("lot_number", .pstr "1")]])
          (.plist [.pdict [("lot_number", .pstr "2")],
                   .pdict [("lot_number", .pstr "3")]])
        = .plist os
      ∧ os.length ≤ [PyVal.pdict [("lot_number", .pstr "1")]].length
      ∧ ∀ x ∈ os, ∃ j l, [PyVal.pdict [("lot_number", .pstr "1")]].get? j = some l
          ∧ (x = l ∨ ∃ d fs, l = PyVal.pdict d
              ∧ (PyVal.plist [.pdict [("lot_number", .pstr "2")],
                              .pdict [("lot_number", .pstr "3")]]) = .plist fs
              ∧ x = processOne fs (fbByNum fs) j d) :=
  C8_lots_bounded [.pdict [("lot_number", .pstr "1")]]
    (.plist [.pdict [("lot_number", .pstr "2")], .pdict [("lot_number", .pstr "3")]])
    (by simp)

/-! ## C2 — fusion never overwrites non-missing base data -/

theorem pyGet_fillStep_ne (fb o : PyDict) (k attr : String) (h : k ≠ attr) :
    pyGet (fillStep fb o k) attr = pyGet o attr := by
  unfold fillStep
  split
  · rw [pyGet_assocSet, if_neg h]
  · rfl

theorem pyGet_fillStep_self (fb o : PyDict) (k : String)
    (h1 : isNoneV (pyGet o k) = false) (h2 : isBlankStr (pyGet o k) = false) :
    pyGet (fillStep fb o k) k = pyGet o k := by
  unfold fillStep
  rw [if_neg]
  simp [h1, h2]

theorem pyGet_fillLot_preserved (d fb : PyDict) (attr : String)
    (hmem : attr ∈ ["lot_subject", "lot_estimated_value", "caution_provisoire",
      "lot_number"])
    (h1 : isNoneV (pyGet d attr) = false) (h2 : isBlankStr (pyGet d attr) = false) :
    pyGet (fillLot d fb) attr = pyGet d attr := by
  fin_cases hmem
  · unfold fillLot
    simp only [List.foldl_cons, List.foldl_nil]
    rw [pyGet_fillStep_ne _ _ _ _ (by decide), pyGet_fillStep_ne _ _ _ _ (by decide),
      pyGet_fillStep_ne _ _ _ _ (by decide), pyGet_fillStep_self _ _ _ h1 h2]
  · unfold fillLot
    simp only [List.foldl_cons, List.foldl_nil]
    have ho : pyGet (fillStep fb d "lot_subject") "lot_estimated_value"
        = pyGet d "lot_estimated_value" := pyGet_fillStep_ne fb d _ _ (by decide)
    rw [pyGet_fillStep_ne _ _ _ _ (by decide), pyGet_fillStep_ne _ _ _ _ (by decide),
      pyGet_fillStep_self _ _ _ (by rw [ho]; exact h1) (by rw [ho]; exact h2), ho]
  · unfold fillLot
    simp only [List.foldl_cons, List.foldl_nil]
    have ho : pyGet (fillStep fb (fillStep fb d "lot_subject") "lot_estimated_value")
        "caution_provisoire" = pyGet d "caution_provisoire" := by
      rw [pyGet_fillStep_ne _ _ _ _ (by decide), pyGet_fillStep_ne _ _ _ _ (by decide)]
    rw [pyGet_fillStep_ne _ _ _ _ (by decide),
      pyGet_fillStep_self _ _ _ (by rw [ho]; exact h1) (by rw [ho]; exact h2), ho]
  · unfold fillLot
    simp only [List.foldl_cons, List.foldl_nil]
    have ho : pyGet (fillStep fb (fillStep fb (fillStep fb d "lot_subject")
        "lot_estimated_value") "caution_provisoire") "lot_number"
        = pyGet d "lot_number" := by
      rw [pyGet_fillStep_ne _ _ _ _ (by decide), pyGet_fillStep_ne _ _ _ _ (by decide),
        pyGet_fillStep_ne _ _ _ _ (by decide)]
    rw [pyGet_fillStep_self _ _ _ (by rw [ho]; exact h1) (by rw [ho]; exact h2), ho]

theorem processOne_preserved (fs : List PyVal) (byNum : List (String × PyDict))
    (i : Nat) (d : PyDict) (attr : String)
    (hmem : attr ∈ ["lot_subject", "lot_estimated_value", "caution_provisoire",
      "lot_number"])
    (h1 : isNoneV (pyGet d attr) = false) (h2 : isBlankStr (pyGet d attr) = false) :
    ∃ od, processOne fs byNum i d = .pdict od ∧ pyGet od attr = pyGet d attr := by
  unfold processOne
  cases hc : chooseFb fs byNum i d with
  | none => exact ⟨d, rfl, rfl⟩
  | some fb =>
      by_cases he : fb.isEmpty
      · exact ⟨d, by simp [he], rfl⟩
      · exact ⟨fillLot d fb, by simp [he],
          pyGet_fillLot_preserved d fb attr hmem h1 h2⟩

theorem mergeLotsLoop_get_all_dicts (fs : List PyVal)
    (byNum : List (String × PyDict)) (bs : List PyVal) (i j : Nat) (d : PyDict)
    (hall : ∀ l ∈ bs, isDictV l = true)
    (hj : bs.get? j = some (.pdict d)) :
    (mergeLotsLoop fs byNum i bs).get? j = some (processOne fs byNum (i + j) d) := by
  induction bs generalizing i j with
  | nil => simp at hj
  | cons lot rest ih =>
      have hlot : isDictV lot = true := hall lot (by simp)
      cases lot with
      | pdict d0 =>
          cases j with
          | zero =>
              simp only [List.get?_cons_zero, Option.some.injEq] at hj
              injection hj with hd
              subst hd
              simp [mergeLotsLoop]
          | succ j' =>
              simp only [List.get?_cons_succ] at hj
              have := ih (i + 1) j' (fun l hl => hall l (by simp [hl])) hj
              simp only [mergeLotsLoop, List.get?_cons_succ]
              rw [this]
              congr 2
              omega
      | none => simp [isDictV] at hlot
      | pstr s => simp [isDictV] at hlot
      | pint n => simp [isDictV] at hlot
      | pbool bb => simp [isDictV] at hlot
      | plist xs => simp [isDictV] at hlot

/-- C2: merging never overwrites non-missing base data, for every field shape:
a non-missing scalar TrackedValue field keeps its exact base value; the
`date`/`time` sub-values of the paired submission deadline are kept when
non-missing; a non-empty base keyword bucket is kept verbatim; and every
non-blank attribute of every (dict-shaped) base lot survives at its position in
the merged lot list. -/
theorem C2_nonmissing_preserved (b f : PyDict) :
    (∀ k ∈ SCALAR_TRACKED_FIELDS, trackedMissing (pyGet b k) = false →
        pyGet (mergeDicts b f) k = pyGet b k)
    ∧ (∀ sb, pyGet b "submission_deadline" = .pdict sb →
        (trackedMissing (pyGet sb "date") = false →
          getAt (pyGet (mergeDicts b f) "submission_deadline") "date"
            = pyGet sb "date")
        ∧ (trackedMissing (pyGet sb "time") = false →
          getAt (pyGet (mergeDicts b f) "submission_deadline") "time"
            = pyGet sb "time"))
    ∧ (∀ kb, pyGet b "keywords" = .pdict kb →
        ∀ lang ∈ ["keywords_fr", "keywords_eng", "keywords_ar"],
        ∀ xs, pyGet kb lang = .plist xs → xs ≠ [] →
        getAt (pyGet (mergeDicts b f) "keywords") lang = .plist xs)
    ∧ (∀ ls, pyGet b "lots" = .plist ls → (∀ l ∈ ls, isDictV l = true) →
        ∀ j d, ls.get? j = some (.pdict d) →
        ∀ attr ∈ ["lot_subject", "lot_estimated_value", "caution_provisoire",
          "lot_number"],
          isNoneV (pyGet d attr) = false → isBlankStr (pyGet d attr) = false →
          ∃ os od, pyGet (mergeDicts b f) "lots" = .plist os
            ∧ os.get? j = some (.pdict od) ∧ pyGet od attr = pyGet d attr) := by
  refine ⟨?_, ?_, ?_, ?_⟩
  · intro k hk h
    rw [pyGet_mergeDicts_scalar b f k hk]
    simp [mergeTrackedValue, h]
  · intro sb hsb
    rw [pyGet_mergeDicts_sd, hsb]
    constructor
    · intro h
      cases hf : pyGet f "submission_deadline" <;>
        simp [mergeSubmissionDeadline, getAt, pyGet, mergeTrackedValue, h]
    · intro h
      cases hf : pyGet f "submission_deadline" <;>
        simp [mergeSubmissionDeadline, getAt, pyGet, mergeTrackedValue, h]
  · intro kb hkb lang hlang xs hxs hne
    have hpos : 0 < xs.length := List.length_pos.2 hne
    rw [pyGet_mergeDicts_keywords, hkb]
    cases hf : pyGet f "keywords" <;> fin_cases hlang <;>
      simp [mergeKeywords, getAt, pyGet, pickList, hxs, hpos]
  · intro ls hls hall j d hj attr hattr h1 h2
    have hlen : j < ls.length := by
      rcases List.get?_eq_some.1 hj with ⟨hlt, _⟩
      exact hlt
    have hlsne : ls.isEmpty = false := by
      cases ls
      · simp at hlen
      · simp
    rw [pyGet_mergeDicts_lots, hls]
    cases hf : pyGet f "lots" with
    | plist fs =>
        by_cases hfs : fs.isEmpty
        · exact ⟨ls, d, by simp [mergeLots, hlsne, hfs], hj, rfl⟩
        · obtain ⟨od, hpo, hod⟩ :=
            processOne_preserved fs (fbByNum fs) j d attr hattr h1 h2
          refine ⟨mergeLotsLoop fs (fbByNum fs) 0 ls, od,
            by simp [mergeLots, hlsne, hfs], ?_, hod⟩
          have := mergeLotsLoop_get_all_dicts fs (fbByNum fs) ls 0 j d hall hj
          simpa [hpo] using this
    | none => exact ⟨ls, d, by simp [mergeLots, hlsne], hj, rfl⟩
    | pstr s => exact ⟨ls, d, by simp [mergeLots, hlsne], hj, rfl⟩
    | pint n => exact ⟨ls, d, by simp [mergeLots, hlsne], hj, rfl⟩
    | pbool bb => exact ⟨ls, d, by simp [mergeLots, hlsne], hj, rfl⟩
    | pdict dd => exact ⟨ls, d, by simp [mergeLots, hlsne], hj, rfl⟩

/-- C2 witness: the frame property at a concrete record exercising all four
shapes. -/
theorem C2_witness :
    pyGet (mergeDicts bC2 fC2) "reference_tender" = pyGet bC2 "reference_tender"
    ∧ getAt (pyGet (mergeDicts bC2 fC2) "submission_deadline") "date"
        = tvC "2024-05-01"
    ∧ getAt (pyGet (mergeDicts bC2 fC2) "keywords") "keywords_fr"
        = .plist [.pstr "eau"]
    ∧ ∃ os od, pyGet (mergeDicts bC2 fC2) "lots" = .plist os
        ∧ os.get? 0 = some (.pdict od)
        ∧ pyGet od "lot_subject" = .pstr "Lot un" := by
  refine ⟨?_, ?_, ?_, ?_⟩
  · exact (C2_nonmissing_preserved bC2 fC2).1 "reference_tender" (by decide)
      (by decide)
  · have h := ((C2_nonmissing_preserved bC2 fC2).2.1
      [("date", tvC "2024-05-01"), ("time", .pdict [("value", PyVal.none)])]
      rfl).1 (by decide)
    rw [h]
    rfl
  · exact (C2_nonmissing_preserved bC2 fC2).2.2.1
      [("keywords_fr", .plist [.pstr "eau"]), ("keywords_eng", .plist [])] rfl
      "keywords_fr" (by decide) [.pstr "eau"] rfl (List.cons_ne_nil _ _)
  · obtain ⟨os, od, ho, hg, ha⟩ := (C2_nonmissing_preserved bC2 fC2).2.2.2
      [.pdict [("lot_number", .pstr "1"), ("lot_subject", .pstr "Lot un")]] rfl
      (by decide) 0 [("lot_number", .pstr "1"), ("lot_subject", .pstr "Lot un")]
      rfl "lot_subject" (by decide) (by decide) (by decide)
    refine ⟨os, od, ho, hg, ?_⟩
    rw [ha]
    rfl

/-! ## C6 — language-priority selection -/

theorem selectPartition_eq_tiers (cs : List FirstPageResult) :
    selectPartition cs = (frenchTier cs, arabicTier cs, neutralTier cs) := by
  induction cs with
  | nil => simp [selectPartition, frenchTier, arabicTier, neutralTier]
  | cons d rest ih =>
      simp only [selectPartition, ih]
      by_cases hf : isFrenchDocument d.filename d.first_page_text <;>
        by_cases ha : isArabicDocument d.filename d.first_page_text <;>
          simp [frenchTier, arabicTier, neutralTier, List.filter_cons, hf, ha]

theorem mem_some_tier (d : FirstPageResult) (cs : List FirstPageResult)
    (hd : d ∈ cs) :
    d ∈ frenchTier cs ∨ d ∈ neutralTier cs ∨ d ∈ arabicTier cs := by
  by_cases hf : isFrenchDocument d.filename d.first_page_text <;>
    by_cases ha : isArabicDocument d.filename d.first_page_text <;>
      simp [frenchTier, arabicTier, neutralTier, List.mem_filter, hd, hf, ha]

theorem select_best_spec (cs : List FirstPageResult) (h : cs ≠ []) :
    _select_best_document cs
      = ((frenchTier cs).head?.or
          ((neutralTier cs).head?.or (arabicTier cs).head?)) := by
  cases cs with
  | nil => exact absurd rfl h
  | cons c0 rest =>
      have hcover := mem_some_tier c0 (c0 :: rest) (by simp)
      simp only [_select_best_document, selectPartition_eq_tiers]
      cases hF : frenchTier (c0 :: rest) with
      | cons dF tF => simp
      | nil =>
          cases hN : neutralTier (c0 :: rest) with
          | cons dN tN => simp
          | nil =>
              cases hA : arabicTier (c0 :: rest) with
              | cons dA tA => simp
              | nil => simp [hF, hN, hA] at hcover

/-- C6: the selector returns `None` exactly on an empty candidate list; on a
non-empty list it returns the first candidate, in input order, of the
highest-priority non-empty tier (French-only, then neutral, then Arabic-only);
a candidate matching both language signals lands in the neutral tier; and on
the concrete scenario `[avis_ar.pdf, avis_fr.pdf]` it picks `avis_fr.pdf`. -/
theorem C6_selector (cs : List FirstPageResult) :
    (_select_best_document cs = Option.none ↔ cs = [])
    ∧ (cs ≠ [] → _select_best_document cs
        = ((frenchTier cs).head?.or
            ((neutralTier cs).head?.or (arabicTier cs).head?)))
    ∧ (∀ d ∈ cs, isFrenchDocument d.filename d.first_page_text = true →
        isArabicDocument d.filename d.first_page_text = true →
        d ∈ neutralTier cs)
    ∧ _select_best_document [arDocC6, frDocC6] = some frDocC6 := by
  refine ⟨?_, select_best_spec cs, ?_, ?_⟩
  · constructor
    · intro h
      cases cs with
      | nil => rfl
      | cons c0 rest =>
          exfalso
          have hne : c0 :: rest ≠ [] := by simp
          rw [select_best_spec _ hne] at h
          have hcover := mem_some_tier c0 (c0 :: rest) (by simp)
          rcases hF : frenchTier (c0 :: rest) with _ | ⟨dF, tF⟩
          · rcases hN : neutralTier (c0 :: rest) with _ | ⟨dN, tN⟩
            · rcases hA : arabicTier (c0 :: rest) with _ | ⟨dA, tA⟩
              · simp [hF, hN, hA] at hcover
              · rw [hF, hN, hA] at h
                simp [Option.or] at h
            · rw [hF, hN] at h
              simp [Option.or] at h
          · rw [hF] at h
            simp [Option.or] at h
    · intro h
      subst h
      rfl
  · intro d hd hf ha
    simp [neutralTier, List.mem_filter, hd, hf, ha]
  · rfl

/-- C6 witness: the selector properties at concrete inputs — empty list gives
`None`, the two-notice scenario follows the tier chain, and a both-signal
candidate sits in the neutral tier. -/
theorem C6_witness :
    _select_best_document [arDocC6, frDocC6]
        = ((frenchTier [arDocC6, frDocC6]).head?.or
            ((neutralTier [arDocC6, frDocC6]).head?.or
              (arabicTier [arDocC6, frDocC6]).head?))
      ∧ bothDocC6 ∈ neutralTier [bothDocC6] :=
  ⟨(C6_selector [arDocC6, frDocC6]).2.1 (by simp),
   (C6_selector [bothDocC6]).2.2.1 bothDocC6 (by simp) rfl rfl⟩

/-! ## C3 — multi-tender AVIS exclusion and fall-through -/

theorem lazyLoop_none_cons {β : Type}
    (extractFull : String → β → Bool → ExtractionResult) (zip : List (String × β))
    (cur : MetaRec) (dt : DocumentType)
    (rest : List (DocumentType × Option FirstPageResult)) :
    lazyLoop extractFull zip cur ((dt, Option.none) :: rest)
      = lazyLoop extractFull zip cur rest := rfl

theorem lazyLoop_fst_mem {β : Type}
    (extractFull : String → β → Bool → ExtractionResult) (zip : List (String × β))
    (cur : MetaRec) (cands : List (DocumentType × Option FirstPageResult))
    (e : DocumentType × ExtractionResult)
    (he : e ∈ lazyLoop extractFull zip cur cands) :
    e.1 ∈ cands.map Prod.fst := by
  induction cands with
  | nil => simp [lazyLoop] at he
  | cons c rest ih =>
      obtain ⟨dt, info⟩ := c
      cases info with
      | none =>
          rw [lazyLoop_none_cons] at he
          simpa using Or.inr (ih he)
      | some i =>
          simp only [lazyLoop] at he
          split at he
          · simpa using Or.inr (ih he)
          · split at he
            · simp at he
            · split at he
              · rcases List.mem_cons.1 he with h | h
                · simp [h]
                · simpa using Or.inr (ih h)
              · simpa using Or.inr (ih he)

/-- C3: when the selected PrimaryNotice (AVIS) candidate's sample text contains
any fixed multi-tender phrase or more than three reference-shaped matches (the
source's count of reference-number-shaped substrings), the AVIS is excluded
entirely — even when it is the only AVIS candidate — and the lazy walk is
exactly the walk over the remaining categories RC then CPS. -/
theorem C3_multi_tender_excluded {β : Type} (body : String → β → FirstPageResult)
    (extractFull : String → β → Bool → ExtractionResult)
    (zip : List (String × β)) (ref : Option String) (cur : MetaRec)
    (hguard : ∀ a, preGuardBest body zip DocumentType.AVIS = some a →
        multiTenderIndicators.any
            (fun p => containsSeq p (lowerChars a.first_page_text)) = true
          ∨ 3 < refMatchCount (lowerChars a.first_page_text)) :
    (∀ e ∈ (extract_best_documents_for_phase1_lazy body extractFull zip ref cur).1,
        e.1 ≠ DocumentType.AVIS)
    ∧ (extract_best_documents_for_phase1_lazy body extractFull zip ref cur).1
        = lazyLoop extractFull zip cur
            [(DocumentType.RC, preGuardBest body zip DocumentType.RC),
             (DocumentType.CPS, preGuardBest body zip DocumentType.CPS)] := by
  have hga : bestAvisGuarded body zip ref = Option.none := by
    unfold bestAvisGuarded
    cases hp : preGuardBest body zip DocumentType.AVIS with
    | none => rfl
    | some a =>
        have hdis := hguard a hp
        have hmt : _is_multi_tender_avis a.first_page_text ref = true := by
          unfold _is_multi_tender_avis
          by_cases he : a.first_page_text = ""
          · exfalso
            rw [he] at hdis
            rcases hdis with h | h
            · exact absurd h (by decide)
            · have h0 : refMatchCount (lowerChars "") = 0 := rfl
              omega
          · rw [if_neg he]
            rcases hdis with h | h
            · simp [h]
            · simp [h]
        simp [hmt]
  have hfirst :
      (extract_best_documents_for_phase1_lazy body extractFull zip ref cur).1
        = lazyLoop extractFull zip cur
            [(DocumentType.RC, preGuardBest body zip DocumentType.RC),
             (DocumentType.CPS, preGuardBest body zip DocumentType.CPS)] := by
    simp only [extract_best_documents_for_phase1_lazy, hga]
    rw [lazyLoop_none_cons]
  refine ⟨?_, hfirst⟩
  intro e he
  rw [hfirst] at he
  have hm := lazyLoop_fst_mem extractFull zip cur _ e he
  simp only [List.map_cons, List.map_nil, List.mem_cons, List.not_mem_nil,
    or_false] at hm
  rcases hm with h | h <;> simp [h]

/-- C3 witness: a lone AVIS whose sample holds four distinct reference numbers
is excluded and the walk lands on RC. -/
theorem C3_witness :
    (3 < refMatchCount (lowerChars mtTextC3))
    ∧ ∀ e ∈ (extract_best_documents_for_phase1_lazy bodyC3 efC1 zipC1 Option.none
        meta0C1).1, e.1 ≠ DocumentType.AVIS := by
  refine ⟨by decide,
    (C3_multi_tender_excluded bodyC3 efC1 zipC1 Option.none meta0C1 ?_).1⟩
  intro a hp
  have hsel : preGuardBest bodyC3 zipC1 DocumentType.AVIS = some avisMTC3 := rfl
  rw [hsel] at hp
  injection hp with h
  subst h
  right
  decide

/-! ## C1 — the lazy walk keeps extracting after the accumulated record is
complete -/

/-- C1 (code evaluation at the failing input): the initial record lacks only
`subject`; merging the AVIS fragment completes it; yet the lazy extractor also
runs the full extraction of the RC candidate, because
`extract_best_documents_for_phase1_lazy` consults `is_metadata_complete` on the
same unchanged `current_metadata` at every step of the walk — the merging
happens only afterwards, in the caller's loop, which stops merging (not
extracting) at RC. -/
theorem C1_lazy_extracts_past_completion :
    is_metadata_complete meta0C1 = false
    ∧ is_metadata_complete (merge_phase1_metadata meta0C1 fragAvisC1) = true
    ∧ ((extract_best_documents_for_phase1_lazy bodyC1 efC1 zipC1 Option.none
        meta0C1).1.map Prod.fst = [DocumentType.AVIS, DocumentType.RC])
    ∧ phase1FallbackMergeLoop aiC1
        (extract_best_documents_for_phase1_lazy bodyC1 efC1 zipC1 Option.none
          meta0C1).1 meta0C1
        [("AVIS", DocumentType.AVIS), ("RC", DocumentType.RC),
         ("CPS", DocumentType.CPS)]
      = merge_phase1_metadata meta0C1 fragAvisC1 := by
  refine ⟨rfl, rfl, rfl, rfl⟩

/-! ## C5 — idempotence of repeated merging -/

/-- C5 counterexample: with a falsy (`None`) base, the first merge returns the
fallback unchanged, while the second merge materializes all scalar keys plus
`submission_deadline`, `lots` and `keywords` on top of it — the two results
differ (10 keys against 1). -/
theorem C5_counterexample :
    merge_phase1_metadata (merge_phase1_metadata Option.none fbC5) fbC5
      ≠ merge_phase1_metadata Option.none fbC5 := by
  intro h
  have hL : Option.map List.length
      (merge_phase1_metadata (merge_phase1_metadata Option.none fbC5) fbC5)
      = some 10 := rfl
  rw [h] at hL
  have hR : Option.map List.length (merge_phase1_metadata Option.none fbC5)
      = some 1 := rfl
  rw [hR] at hL
  exact absurd hL (by decide)

theorem mergeTrackedValue_idem (x y : PyVal) :
    mergeTrackedValue (mergeTrackedValue x y) y = mergeTrackedValue x y := by
  by_cases h : (trackedMissing x && isDictV y) = true
  · simp only [mergeTrackedValue, if_pos h]
    split <;> rfl
  · simp only [mergeTrackedValue, if_neg h]

theorem mergeSubmissionDeadline_idem (x y : PyVal) :
    mergeSubmissionDeadline (mergeSubmissionDeadline x y) y
      = mergeSubmissionDeadline x y := by
  cases y with
  | pdict fd =>
      cases x <;> simp [mergeSubmissionDeadline, pyGet, mergeTrackedValue_idem]
  | none => cases x <;> simp [mergeSubmissionDeadline]
  | pstr s => cases x <;> simp [mergeSubmissionDeadline]
  | pint n => cases x <;> simp [mergeSubmissionDeadline]
  | pbool bb => cases x <;> simp [mergeSubmissionDeadline]
  | plist xs => cases x <;> simp [mergeSubmissionDeadline]

theorem pickList_plist (b f : PyDict) (k : String) :
    ∃ zs, pickList b f k = .plist zs := by
  unfold pickList pickListFb
  cases pyGet b k with
  | plist xs =>
      by_cases hx : 0 < xs.length
      · exact ⟨xs, by simp [hx]⟩
      · cases pyGet f k <;> simp [hx]
  | none => cases pyGet f k <;> simp
  | pstr s => cases pyGet f k <;> simp
  | pint n => cases pyGet f k <;> simp
  | pbool bb => cases pyGet f k <;> simp
  | pdict d => cases pyGet f k <;> simp

theorem pickList_of_plist (b f : PyDict) (k : String) (xs : List PyVal)
    (hb : pyGet b k = .plist xs) :
    pickList b f k = if 0 < xs.length then .plist xs else pickListFb f k := by
  unfold pickList
  rw [hb]

theorem pickList_nil_fb (b f : PyDict) (k : String)
    (h : pickList b f k = .plist []) : pickListFb f k = .plist [] := by
  cases hb : pyGet b k
  case plist xs =>
      rw [pickList_of_plist b f k xs hb] at h
      by_cases hx : 0 < xs.length
      · rw [if_pos hx] at h
        injection h with h'
        subst h'
        simp at hx
      · rwa [if_neg hx] at h
  case none =>
      have he : pickList b f k = pickListFb f k := by
        unfold pickList
        rw [hb]
      rw [he] at h
      exact h
  case pstr s =>
      have he : pickList b f k = pickListFb f k := by
        unfold pickList
        rw [hb]
      rw [he] at h
      exact h
  case pint n =>
      have he : pickList b f k = pickListFb f k := by
        unfold pickList
        rw [hb]
      rw [he] at h
      exact h
  case pbool bb =>
      have he : pickList b f k = pickListFb f k := by
        unfold pickList
        rw [hb]
      rw [he] at h
      exact h
  case pdict d =>
      have he : pickList b f k = pickListFb f k := by
        unfold pickList
        rw [hb]
      rw [he] at h
      exact h

theorem pickList_restart (f : PyDict) (k : String) (inner b : PyDict)
    (hin : pyGet inner k = pickList b f k) :
    pickList inner f k = pickList b f k := by
  obtain ⟨zs, hz⟩ := pickList_plist b f k
  have hi : pickList inner f k
      = if 0 < zs.length then PyVal.plist zs else pickListFb f k := by
    have hin' : pyGet inner k = PyVal.plist zs := by rw [hin, hz]
    exact pickList_of_plist inner f k zs hin'
  by_cases hp : 0 < zs.length
  · rw [hi, if_pos hp, hz]
  · have hz0 : zs = [] := by
      cases zs
      · rfl
      · simp at hp
    subst hz0
    rw [hi, if_neg hp, hz]
    exact pickList_nil_fb b f k hz

theorem mergeKeywordsBody_idem (bx fd : PyDict) :
    mergeKeywords
        (.pdict [("keywords_fr", pickList bx fd "keywords_fr"),
                 ("keywords_eng", pickList bx fd "keywords_eng"),
                 ("keywords_ar", pickList bx fd "keywords_ar")])
        (.pdict fd)
      = .pdict [("keywords_fr", pickList bx fd "keywords_fr"),
                ("keywords_eng", pickList bx fd "keywords_eng"),
                ("keywords_ar", pickList bx fd "keywords_ar")] := by
  simp only [mergeKeywords, PyVal.pdict.injEq]
  rw [pickList_restart fd "keywords_fr" _ bx (by simp [pyGet]),
    pickList_restart fd "keywords_eng" _ bx (by simp [pyGet]),
    pickList_restart fd "keywords_ar" _ bx (by simp [pyGet])]

theorem mergeKeywords_idem (x y : PyVal) :
    mergeKeywords (mergeKeywords x y) y = mergeKeywords x y := by
  cases y with
  | pdict fd =>
      cases x with
      | pdict d => exact mergeKeywordsBody_idem d fd
      | none => exact mergeKeywordsBody_idem [] fd
      | pstr s => exact mergeKeywordsBody_idem [] fd
      | pint n => exact mergeKeywordsBody_idem [] fd
      | pbool bb => exact mergeKeywordsBody_idem [] fd
      | plist xs => exact mergeKeywordsBody_idem [] fd
  | none => cases x <;> simp [mergeKeywords]
  | pstr s => cases x <;> simp [mergeKeywords]
  | pint n => cases x <;> simp [mergeKeywords]
  | pbool bb => cases x <;> simp [mergeKeywords]
  | plist xs => cases x <;> simp [mergeKeywords]

theorem mergeLots_idem_ok (x v : PyVal) (h : lotsValOk v = true) :
    mergeLots (mergeLots x v) v = mergeLots x v := by
  cases v with
  | plist fs =>
      cases fs with
      | cons a l => simp [lotsValOk] at h
      | nil =>
          cases x with
          | plist bs => cases bs with
            | nil => rfl
            | cons b bl => rfl
          | none => rfl
          | pstr s => rfl
          | pint n => rfl
          | pbool bb => rfl
          | pdict d => rfl
  | none =>
      cases x with
      | plist bs => cases bs with
        | nil => rfl
        | cons b bl => rfl
      | none => rfl
      | pstr s => rfl
      | pint n => rfl
      | pbool bb => rfl
      | pdict d => rfl
  | pstr s0 =>
      cases x with
      | plist bs => cases bs with
        | nil => rfl
        | cons b bl => rfl
      | none => rfl
      | pstr s => rfl
      | pint n => rfl
      | pbool bb => rfl
      | pdict d => rfl
  | pint n0 =>
      cases x with
      | plist bs => cases bs with
        | nil => rfl
        | cons b bl => rfl
      | none => rfl
      | pstr s => rfl
      | pint n => rfl
      | pbool bb => rfl
      | pdict d => rfl
  | pbool bb0 =>
      cases x with
      | plist bs => cases bs with
        | nil => rfl
        | cons b bl => rfl
      | none => rfl
      | pstr s => rfl
      | pint n => rfl
      | pbool bb => rfl
      | pdict d => rfl
  | pdict d0 =>
      cases x with
      | plist bs => cases bs with
        | nil => rfl
        | cons b bl => rfl
      | none => rfl
      | pstr s => rfl
      | pint n => rfl
      | pbool bb => rfl
      | pdict d => rfl

theorem assocHas_append_self (o : PyDict) (k : String) (v : PyVal) :
    assocHas (o ++ [(k, v)]) k = true := by
  induction o with
  | nil => simp [assocHas]
  | cons hd tl ih =>
      obtain ⟨k0, v0⟩ := hd
      by_cases h : k0 = k <;> simp [assocHas, h, ih]

theorem assocHas_addMissingKeys_mem (o f : PyDict) :
    ∀ kv ∈ f, assocHas (addMissingKeys o f) kv.1 = true := by
  induction f generalizing o with
  | nil => simp
  | cons kv' rest ih =>
      intro kv hkv
      simp only [addMissingKeys, List.foldl_cons]
      rcases List.mem_cons.1 hkv with h | h
      · subst h
        by_cases hh : assocHas o kv.1
        · rw [if_pos hh]
          exact assocHas_addMissingKeys o rest kv.1 hh
        · rw [if_neg hh]
          exact assocHas_addMissingKeys _ rest kv.1 (assocHas_append_self o kv.1 kv.2)
      · by_cases hh : assocHas o kv'.1
        · rw [if_pos hh]
          exact ih o kv h
        · rw [if_neg hh]
          exact ih _ kv h

theorem mergeScalars_nop (o f : PyDict)
    (h : ∀ k ∈ SCALAR_TRACKED_FIELDS, assocHas o k = true
        ∧ mergeTrackedValue (pyGet o k) (pyGet f k) = pyGet o k) :
    mergeScalars o f = o := by
  have h1 := h "reference_tender" (by decide)
  have h2 := h "tender_type" (by decide)
  have h3 := h "issuing_institution" (by decide)
  have h4 := h "execution_location" (by decide)
  have h5 := h "folder_opening_location" (by decide)
  have h6 := h "subject" (by decide)
  have h7 := h "total_estimated_value" (by decide)
  simp only [mergeScalars, SCALAR_TRACKED_FIELDS, List.foldl_cons, List.foldl_nil]
  rw [assocSet_self o _ _ h1.1 h1.2.symm, assocSet_self o _ _ h2.1 h2.2.symm,
    assocSet_self o _ _ h3.1 h3.2.symm, assocSet_self o _ _ h4.1 h4.2.symm,
    assocSet_self o _ _ h5.1 h5.2.symm, assocSet_self o _ _ h6.1 h6.2.symm,
    assocSet_self o _ _ h7.1 h7.2.symm]

theorem mergeDicts_nop (o f : PyDict)
    (h1 : mergeScalars o f = o)
    (h2 : assocHas o "submission_deadline" = true)
    (h2v : mergeSubmissionDeadline (pyGet o "submission_deadline")
        (pyGet f "submission_deadline") = pyGet o "submission_deadline")
    (h3 : assocHas o "lots" = true)
    (h3v : mergeLots (pyGet o "lots") (pyGet f "lots") = pyGet o "lots")
    (h4 : assocHas o "keywords" = true)
    (h4v : mergeKeywords (pyGet o "keywords") (pyGet f "keywords")
        = pyGet o "keywords")
    (h5 : ∀ kv ∈ f, assocHas o kv.1 = true) :
    mergeDicts o f = o := by
  simp only [mergeDicts]
  rw [h1, assocSet_self o _ _ h2 h2v.symm, assocSet_self o _ _ h3 h3v.symm,
    assocSet_self o _ _ h4 h4v.symm, addMissingKeys_nop o f h5]

theorem assocHas_mergeDicts_special (b f : PyDict) :
    assocHas (mergeDicts b f) "submission_deadline" = true
    ∧ assocHas (mergeDicts b f) "lots" = true
    ∧ assocHas (mergeDicts b f) "keywords" = true := by
  refine ⟨?_, ?_, ?_⟩ <;>
    (simp only [mergeDicts]
     apply assocHas_addMissingKeys
     rw [assocHas_assocSet]
     try rw [assocHas_assocSet]
     try rw [assocHas_assocSet]
     simp)

theorem assocHas_mergeDicts_scalar (b f : PyDict) (k : String)
    (hk : k ∈ SCALAR_TRACKED_FIELDS) :
    assocHas (mergeDicts b f) k = true := by
  simp only [mergeDicts]
  apply assocHas_addMissingKeys
  rw [assocHas_assocSet, assocHas_assocSet, assocHas_assocSet]
  split_ifs <;> simp [assocHas_mergeScalars_mem b f k hk]

theorem mergeDicts_idem (b f : PyDict) (h : lotsValOk (pyGet f "lots") = true) :
    mergeDicts (mergeDicts b f) f = mergeDicts b f := by
  apply mergeDicts_nop
  · apply mergeScalars_nop
    intro k hk
    refine ⟨assocHas_mergeDicts_scalar b f k hk, ?_⟩
    rw [pyGet_mergeDicts_scalar b f k hk]
    exact mergeTrackedValue_idem (pyGet b k) (pyGet f k)
  · exact (assocHas_mergeDicts_special b f).1
  · rw [pyGet_mergeDicts_sd]
    exact mergeSubmissionDeadline_idem (pyGet b "submission_deadline")
      (pyGet f "submission_deadline")
  · exact (assocHas_mergeDicts_special b f).2.1
  · rw [pyGet_mergeDicts_lots]
    exact mergeLots_idem_ok (pyGet b "lots") (pyGet f "lots") h
  · exact (assocHas_mergeDicts_special b f).2.2
  · rw [pyGet_mergeDicts_keywords]
    exact mergeKeywords_idem (pyGet b "keywords") (pyGet f "keywords")
  · intro kv hkv
    simp only [mergeDicts]
    exact assocHas_addMissingKeys_mem _ f kv hkv

/-- C5 (amended): merging the same fallback twice equals merging it once,
provided the base record is truthy (non-`None`, non-empty) and the fallback's
`lots` entry is not a non-empty list.  Without the first condition the second
merge materializes keys on the returned fallback; without the second the lot
merge can rewrite the lot list again. -/
theorem C5_idempotent_amended (b f : MetaRec) (hb : recFalsy b = false)
    (hf : lotsFbOk f = true) :
    merge_phase1_metadata (merge_phase1_metadata b f) f
      = merge_phase1_metadata b f := by
  cases b with
  | none => simp [recFalsy] at hb
  | some bd =>
      have hbd : bd.isEmpty = false := hb
      cases f with
      | none => simp [merge_phase1_metadata, recFalsy, hbd]
      | some fd =>
          by_cases hfd : fd.isEmpty
          · simp [merge_phase1_metadata, recFalsy, hbd, hfd]
          · have hm : merge_phase1_metadata (some bd) (some fd)
                = some (mergeDicts bd fd) := by
              simp [merge_phase1_metadata, recFalsy, hbd, hfd]
            rw [hm]
            have hMne : (mergeDicts bd fd).isEmpty = false := by
              have hkw := (assocHas_mergeDicts_special bd fd).2.2
              cases hcase : mergeDicts bd fd with
              | nil =>
                  rw [hcase] at hkw
                  simp [assocHas] at hkw
              | cons a l => simp
            have hfl : lotsValOk (pyGet fd "lots") = true := hf
            simp only [merge_phase1_metadata, recFalsy, hMne, hfd,
              Bool.false_eq_true, if_false]
            exact congrArg some (mergeDicts_idem bd fd hfl)

/-- C5 witness: the amended idempotence at a concrete truthy base and a
lots-free fallback. -/
theorem C5_witness :
    recFalsy (some [("x", .pstr "y")]) = false
    ∧ lotsFbOk fbC5 = true
    ∧ merge_phase1_metadata
        (merge_phase1_metadata (some [("x", .pstr "y")]) fbC5) fbC5
      = merge_phase1_metadata (some [("x", .pstr "y")]) fbC5 :=
  ⟨rfl, rfl, C5_idempotent_amended (some [("x", .pstr "y")]) fbC5 rfl rfl⟩

/-- Sanity scenario from the specification: the non-missing base reference is
kept, the missing subject is filled from the fallback. -/
example :
    Option.map (fun d => (pyGet d "reference_tender", pyGet d "subject"))
      (merge_phase1_metadata
        (some [("reference_tender", .pdict [("value", .pstr "123/2024")]),
               ("subject", .pdict [("value", PyVal.none)])])
        (some [("reference_tender", .pdict [("value", .pstr "999/2024")]),
               ("subject", .pdict [("value", .pstr "Fourniture de X")])]))
      = some (.pdict [("value", .pstr "123/2024")],
              .pdict [("value", .pstr "Fourniture de X")]) := rfl
